import Mathlib

/-!
Shallow embedding of `src/fdre/asm/ir.c`, the shader assembler of the
freedreno toolchain for the Adreno A2xx ISA: the IR data model, the
resolve pass, the CF-pair emitter, the FETCH/ALU instruction emitters,
the swizzle encoders and the register-usage statistics, together with
proofs of the specification's claims about them.

Machine integers are modelled as `Nat` (the C code never relies on
32-bit wrap-around in the paths treated here: every field is masked by
an assertion before it is shifted into place, and the theorems carry
those assertion bounds as hypotheses).
-/

namespace Fdre

/-- CF clause kinds (the parser tokens ir.c dispatches on). -/
inductive CfType
  | T_NOP
  | T_EXEC
  | T_EXEC_END
  | T_ALLOC
deriving DecidableEq, Repr

/-- Allocation kinds for an ALLOC clause. `cf_emit` only tests whether the
type equals `T_COORD`; every other token behaves like `T_PARAMS`. -/
inductive AllocType
  | T_COORD
  | T_PARAMS
deriving DecidableEq, Repr

/-- Instruction kinds. `instr_emit` accepts `T_FETCH` and `T_ALU` and
returns -1 on any other tag; `T_OTHER` stands for such a tag. -/
inductive InstrKind
  | T_FETCH
  | T_ALU
  | T_OTHER
deriving DecidableEq, Repr

/-- FETCH opcodes (`instr_fetch_opc` dispatches on these). -/
inductive FetchOpc
  | T_SAMPLE
  | T_VERTEX
deriving DecidableEq, Repr

/-- Signedness token of a VERTEX fetch (`instr->fetch.sign`). -/
inductive FetchSign
  | T_SIGNED
  | T_UNSIGNED
deriving DecidableEq, Repr

/-- Vector ALU opcodes, exactly the tokens listed in `instr_vector_opc`.
The numeric opcode values live in `instr.h`, which is not part of the
sources treated here, so opcodes stay symbolic. -/
inductive VectorOpc
  | ADDv | MULv | MAXv | MINv | SETEv | SETGTv | SETGTEv | SETNEv
  | FRACv | TRUNCv | FLOORv | MULADDv | CNDEv | CNDGTEv | CNDGTv
  | DOT4v | DOT3v | DOT2ADDv | CUBEv | MAX4v
  | PRED_SETE_PUSHv | PRED_SETNE_PUSHv | PRED_SETGT_PUSHv | PRED_SETGTE_PUSHv
  | KILLEv | KILLGTv | KILLGTEv | KILLNEv | DSTv | MOVAv
deriving DecidableEq, Repr

/-- Scalar ALU opcodes, exactly the tokens listed in `instr_scalar_opc`.
Numeric values again live in `instr.h` and stay symbolic. -/
inductive ScalarOpc
  | ADDs | ADD_PREVs | MULs | MUL_PREVs | MUL_PREV2s | MAXs | MINs
  | SETEs | SETGTs | SETGTEs | SETNEs | FRACs | TRUNCs | FLOORs
  | EXP_IEEE | LOG_CLAMP | LOG_IEEE | RECIP_CLAMP | RECIP_FF | RECIP_IEEE
  | RECIPSQ_CLAMP | RECIPSQ_FF | RECIPSQ_IEEE | MOVAs | MOVA_FLOORs
  | SUBs | SUB_PREVs | PRED_SETEs | PRED_SETNEs | PRED_SETGTs | PRED_SETGTEs
  | PRED_SET_INVs | PRED_SET_POPs | PRED_SET_CLRs | PRED_SET_RESTOREs
  | KILLEs | KILLGTs | KILLGTEs | KILLNEs | KILLONEs | SQRT_IEEE
  | MUL_CONST_0 | MUL_CONST_1 | ADD_CONST_0 | ADD_CONST_1
  | SUB_CONST_0 | SUB_CONST_1 | SIN | COS | RETAIN_PREV
deriving DecidableEq, Repr

/-- Modelled from the spec: register flags are a bitmask over
IR_REG_CONST / IR_REG_EXPORT / IR_REG_NEGATE / IR_REG_ABS (the mask
constants live in `ir.h`, which is absent from src), represented here as
four booleans. -/
structure RegFlags where
  isConst : Bool
  isExport : Bool
  isNegate : Bool
  isAbs : Bool
deriving DecidableEq, Repr

/-- The `struct ir_register` of ir.c: register number, flags, and an
optional swizzle string (NULL in C becomes `none`). -/
structure IrRegister where
  num : Nat
  flags : RegFlags
  swizzle : Option (List Char)
deriving DecidableEq, Repr

/-- The `instr->fetch` payload of a FETCH instruction. -/
structure IrFetchInfo where
  opc : FetchOpc
  constant : Nat
  sign : FetchSign
  fmt : Nat
  stride : Nat
deriving DecidableEq, Repr

/-- The `instr->alu` payload of an ALU instruction. In C `scalar_opc` is an
int whose value 0 means "no scalar half"; here it is an `Option`. -/
structure IrAluInfo where
  vector_opc : VectorOpc
  scalar_opc : Option ScalarOpc
deriving DecidableEq, Repr

/-- The `struct ir_instruction` of ir.c (the FETCH and ALU payloads of the
C union are both present; the tag says which one is meaningful). -/
structure IrInstruction where
  instr_type : InstrKind
  sync : Bool
  regs : List IrRegister
  fetch : IrFetchInfo
  alu : IrAluInfo
deriving DecidableEq, Repr

/-- The `struct ir_cf` of ir.c: clause kind plus the EXEC payload
(addr / cnt / sequence / instruction list) and the ALLOC payload
(size / type); the kind says which payload is meaningful. -/
structure IrCF where
  cf_type : CfType
  exec_addr : Nat
  exec_cnt : Nat
  exec_sequence : Nat
  exec_instrs : List IrInstruction
  alloc_size : Nat
  alloc_type : AllocType
deriving DecidableEq, Repr

/-- The shader root: its ordered CF clause list (the attribute, constant,
sampler, uniform and varying tables play no role in assembly). -/
structure IrShader where
  cfs : List IrCF
deriving DecidableEq, Repr

/-- The `struct ir_shader_info` statistics record. `max_reg` starts at -1,
so it is an `Int`; the other two never go below 0. -/
structure IrShaderInfo where
  max_reg : Int
  max_input_reg : Nat
  regs_written : Nat
deriving DecidableEq, Repr

/-- True for EXEC and EXEC_END clauses, the test
`(cf->cf_type == T_EXEC) || (cf->cf_type == T_EXEC_END)` used by both
`shader_resolve` and `ir_shader_assemble`. -/
def is_exec_cf (cf : IrCF) : Bool :=
  cf.cf_type = CfType.T_EXEC || cf.cf_type = CfType.T_EXEC_END

/-- One iteration of the sequence loop of `shader_resolve`:
`sequence <<= 2; if FETCH sequence |= 0x1; if sync sequence |= 0x2;`. -/
def seq_step (sequence : Nat) (instr : IrInstruction) : Nat :=
  let s := sequence <<< 2
  let s := if instr.instr_type = InstrKind.T_FETCH then s ||| 0x1 else s
  if instr.sync then s ||| 0x2 else s

/-- The sequence loop of `shader_resolve`: iterate the clause's
instructions from the last index down to 0. -/
def calc_sequence (instrs : List IrInstruction) : Nat :=
  instrs.reverse.foldl seq_step 0

/-- The body of `shader_resolve`'s loop for one clause: EXEC/EXEC_END
clauses get addr/cnt/sequence written and advance the address by their
instruction count; other clauses are untouched. -/
def resolve_cf (addr : Nat) (cf : IrCF) : Nat × IrCF :=
  if is_exec_cf cf then
    (addr + cf.exec_instrs.length,
     { cf with
        exec_addr := addr
        exec_cnt := cf.exec_instrs.length
        exec_sequence := calc_sequence cf.exec_instrs })
  else
    (addr, cf)

/-- The clause loop of `shader_resolve`, threading the running address. -/
def resolve_cfs (addr : Nat) : List IrCF → List IrCF
  | [] => []
  | cf :: rest =>
    let (addr2, cf2) := resolve_cf addr cf
    cf2 :: resolve_cfs addr2 rest

/-- The first assembly pass `shader_resolve`: the running address starts
at `cfs_count / 2` (C integer division) and the clause loop runs over the
whole clause list.  The C function always returns 0 (success). -/
def shader_resolve (s : IrShader) : IrShader :=
  { s with cfs := resolve_cfs (s.cfs.length / 2) s.cfs }

/-- The `cf_op` opcode table of ir.c. (The C switch's default case prints
an error and falls through to the `T_NOP` arm; only the four listed
tokens ever reach it.) -/
def cf_op (cf : IrCF) : Nat :=
  match cf.cf_type with
  | CfType.T_NOP => 0x0
  | CfType.T_EXEC => 0x1
  | CfType.T_EXEC_END => 0x2
  | CfType.T_ALLOC => 0xc

/-- The CF-pair emitter `cf_emit`: packs two consecutive clauses into
three 32-bit words. Mirrors the two switches of the C code; the
assertion bounds (`addr <= 0xfff` etc.) appear as hypotheses of the
theorems about it. -/
def cf_emit (cf1 cf2 : IrCF) : Nat × Nat × Nat :=
  let d0 : Nat := 0
  let d1 : Nat := 0
  let d2 : Nat := 0
  let d1 := d1 ||| (cf_op cf1 <<< 12)
  let d2 := d2 ||| (cf_op cf2 <<< 28)
  let (d0, d1) :=
    match cf1.cf_type with
    | CfType.T_EXEC | CfType.T_EXEC_END =>
      (((d0 ||| cf1.exec_addr) ||| (cf1.exec_cnt <<< 12)) |||
        (cf1.exec_sequence <<< 16), d1)
    | CfType.T_ALLOC =>
      (d0 ||| cf1.alloc_size,
       d1 ||| ((if cf1.alloc_type = AllocType.T_COORD then 0x2 else 0x4) <<< 8))
    | CfType.T_NOP => (d0, d1)
  let (d1, d2) :=
    match cf2.cf_type with
    | CfType.T_EXEC | CfType.T_EXEC_END =>
      ((d1 ||| (cf2.exec_addr <<< 16)) ||| (cf2.exec_cnt <<< 28),
       d2 ||| (cf2.exec_sequence <<< 0))
    | CfType.T_ALLOC =>
      (d1 ||| (cf2.alloc_size <<< 16),
       d2 ||| ((if cf2.alloc_type = AllocType.T_COORD then 0x2 else 0x4) <<< 24))
    | CfType.T_NOP => (d1, d2)
  (d0, d1, d2)

/-- Fetch-swizzle channel value: the switch arms of `reg_fetch_src_swiz`.
The C default case prints an error and falls through to the `'x'` arm,
hence the catch-all 0. -/
def fetch_swiz_val (c : Char) : Nat :=
  match c with
  | 'y' => 0x1
  | 'z' => 0x2
  | 'w' => 0x3
  | _ => 0x0

/-- The `reg_fetch_src_swiz` encoder: iterate the n-character swizzle from
index n-1 down to 0, shifting by 2 and or-ing the channel value. Reading
past the string (which the C asserts never happens) yields the default
arm's value. -/
def reg_fetch_src_swiz (reg : IrRegister) (n : Nat) : Nat :=
  let chars := reg.swizzle.getD []
  (List.range n).reverse.foldl
    (fun swiz i => (swiz <<< 2) ||| fetch_swiz_val (chars.getD i 'x')) 0

/-- Fetch-destination channel value: the switch arms of
`reg_fetch_dst_swiz` (default falls through to `'x'`). -/
def fetch_dst_swiz_val (c : Char) : Nat :=
  match c with
  | 'y' => 0x1
  | 'z' => 0x2
  | 'w' => 0x3
  | '0' => 0x4
  | '1' => 0x5
  | '_' => 0x7
  | _ => 0x0

/-- The `reg_fetch_dst_swiz` encoder: three bits per channel, iterated
from index 3 down to 0; an absent swizzle encodes as 0x688. -/
def reg_fetch_dst_swiz (reg : IrRegister) : Nat :=
  match reg.swizzle with
  | some chars =>
    (List.range 4).reverse.foldl
      (fun swiz i => (swiz <<< 3) ||| fetch_dst_swiz_val (chars.getD i 'x')) 0
  | none => 0x688

/-- Identity character of channel i, the C expression `"xyzw"[i]`. -/
def identity_char (i : Nat) : Char :=
  match i with
  | 0 => 'x'
  | 1 => 'y'
  | 2 => 'z'
  | _ => 'w'

/-- Loop of `reg_alu_dst_swiz` over the index list [3,2,1,0]: shift by
one, set the bit when the character is the identity character, and on
any character other than identity or `'_'` print an error and break out
of the loop (returning the partially shifted value). -/
def reg_alu_dst_swiz_go (chars : List Char) : List Nat → Nat → Nat
  | [], swiz => swiz
  | i :: rest, swiz =>
    let swiz := swiz <<< 1
    if chars.getD i 'x' = identity_char i then
      reg_alu_dst_swiz_go chars rest (swiz ||| 0x1)
    else if chars.getD i 'x' ≠ '_' then
      swiz
    else
      reg_alu_dst_swiz_go chars rest swiz

/-- The `reg_alu_dst_swiz` encoder (an ALU write-mask): one bit per
channel from index 3 down to 0; an absent swizzle encodes as 0xf. -/
def reg_alu_dst_swiz (reg : IrRegister) : Nat :=
  match reg.swizzle with
  | some chars => reg_alu_dst_swiz_go chars [3, 2, 1, 0] 0
  | none => 0xf

/-- ALU-source channel value, the C expression `(target - i) & 0x3` on
int arithmetic (the default case falls through to the `'x'` arm). -/
def alu_src_val (c : Char) (i : Nat) : Nat :=
  let t : Int :=
    match c with
    | 'y' => 0x1
    | 'z' => 0x2
    | 'w' => 0x3
    | _ => 0x0
  ((t - (i : Int)) % 4).toNat

/-- The `reg_alu_src_swiz` encoder (a rotational source swizzle): two bits
per channel from index 3 down to 0; an absent swizzle encodes as 0. -/
def reg_alu_src_swiz (reg : IrRegister) : Nat :=
  match reg.swizzle with
  | some chars =>
    (List.range 4).reverse.foldl
      (fun swiz i => (swiz <<< 2) ||| alu_src_val (chars.getD i 'x') i) 0
  | none => 0x0

/-- The `reg_update_stats` statistics update of ir.c. -/
def reg_update_stats (reg : IrRegister) (info : IrShaderInfo) (dest : Bool) :
    IrShaderInfo :=
  if !(reg.flags.isConst || reg.flags.isExport) then
    let info := { info with max_reg := max info.max_reg (reg.num : Int) }
    if dest then
      { info with regs_written := info.regs_written ||| (1 <<< reg.num) }
    else if info.regs_written &&& (1 <<< reg.num) = 0 then
      { info with max_input_reg := max info.max_input_reg reg.num }
    else
      info
  else
    info

/-- Register operand access `instr->regs[i]`. The C code indexes blindly;
the creation-time capacity assertion guarantees the index is in range in
every path exercised below, so the default is never observed there. -/
def dummy_reg : IrRegister :=
  { num := 0, flags := ⟨false, false, false, false⟩, swizzle := none }

/-- Shorthand for `instr->regs[i]`. -/
def reg_at (instr : IrInstruction) (i : Nat) : IrRegister :=
  instr.regs.getD i dummy_reg

/-- The `instr_fetch_opc` table (the C default case prints an error and
falls through to the `T_SAMPLE` arm; only the two listed tokens occur). -/
def instr_fetch_opc (instr : IrInstruction) : Nat :=
  match instr.fetch.opc with
  | FetchOpc.T_SAMPLE => 0x01
  | FetchOpc.T_VERTEX => 0x00

/-- The FETCH emitter `instr_emit_fetch`: updates the statistics for its
destination and source registers and packs three words.  The assertion
bounds (`constant <= 0xf`, `stride <= 0xff`, `fmt <= 0x3f`) appear as
hypotheses of the theorems about it. -/
def instr_emit_fetch (instr : IrInstruction) (idx : Nat)
    (info : IrShaderInfo) : (Nat × Nat × Nat) × IrShaderInfo :=
  let dst_reg := reg_at instr 0
  let src_reg := reg_at instr 1
  let info := reg_update_stats dst_reg info true
  let info := reg_update_stats src_reg info false
  let d0 : Nat := 0
  let d1 : Nat := 0
  let d2 : Nat := 0
  let d0 := d0 ||| (instr_fetch_opc instr <<< 0)
  let d0 := d0 ||| (src_reg.num <<< 5)
  let d0 := d0 ||| (dst_reg.num <<< 12)
  let d0 := d0 ||| (instr.fetch.constant <<< 20)
  let d1 := d1 ||| (reg_fetch_dst_swiz dst_reg <<< 0)
  if instr.fetch.opc = FetchOpc.T_VERTEX then
    let d0 := d0 ||| (reg_fetch_src_swiz src_reg 1 <<< 25)
    let d1 := d1 ||| ((if instr.fetch.sign = FetchSign.T_SIGNED then 1 else 0) <<< 12)
    let d1 := d1 ||| (instr.fetch.fmt <<< 16)
    let d2 := d2 ||| (instr.fetch.stride <<< 0)
    let d0 := d0 ||| (0x1 <<< 19)
    let d0 := d0 ||| (0x1 <<< 24)
    let d0 := d0 ||| (0x1 <<< 28)
    let d1 := d1 ||| (0x1 <<< 13)
    let d1 := d1 ||| ((if idx > 0 then 0x1 else 0x0) <<< 30)
    let d0 := d0 ||| ((if idx > 0 then 0x0 else 0x1) <<< 27)
    ((d0, d1, d2), info)
  else
    let d0 := d0 ||| (reg_fetch_src_swiz src_reg 3 <<< 26)
    let d1 := d1 ||| (0x1ffff <<< 12)
    let d2 := d2 ||| (0x1 <<< 1)
    ((d0, d1, d2), info)

/-- The fields of `instr_alu_t` (declared in `instr.h`) that
`instr_emit_alu` assigns; all of them are zeroed by the memset before
assignment.  The word-level bit layout of this record is part of
`instr.h` and hence outside the sources treated here; the record itself
is what the emitter computes. -/
structure instr_alu_t where
  vector_dest : Nat
  export_data : Bool
  vector_write_mask : Nat
  vector_opc : VectorOpc
  src1_reg : Nat
  src1_swiz : Nat
  src1_reg_negate : Bool
  src1_reg_abs : Bool
  src1_sel : Bool
  src2_reg : Nat
  src2_swiz : Nat
  src2_reg_negate : Bool
  src2_reg_abs : Bool
  src2_sel : Bool
  scalar_dest : Nat
  scalar_write_mask : Nat
  scalar_opc : ScalarOpc
  src3_reg : Nat
  src3_swiz : Nat
  src3_reg_negate : Bool
  src3_reg_abs : Bool
  src3_sel : Bool
deriving DecidableEq, Repr

/-- The `instr_vector_opc` translation: the numeric table lives in
`instr.h`, so the opcode stays symbolic. -/
def instr_vector_opc (instr : IrInstruction) : VectorOpc :=
  instr.alu.vector_opc

/-- The `instr_scalar_opc` translation (symbolic, as above; the C default
case prints an error and falls through to the `ADDs` arm, which only a
zero `scalar_opc` could reach). -/
def instr_scalar_opc (instr : IrInstruction) : ScalarOpc :=
  instr.alu.scalar_opc.getD ScalarOpc.ADDs

/-- The five per-source assignments of `instr_emit_alu`
(`src*_reg`, `src*_swiz`, `src*_reg_negate`, `src*_reg_abs`, `src*_sel`);
note `sel` is 1 exactly when the register is not a CONST. -/
def alu_src_fields (reg : IrRegister) : Nat × Nat × Bool × Bool × Bool :=
  (reg.num, reg_alu_src_swiz reg, reg.flags.isNegate, reg.flags.isAbs,
   !reg.flags.isConst)

/-- The ALU emitter `instr_emit_alu`.  Operand order in `instr->regs`
follows the C register cursor: dst first; for `MULADDv` the third source
comes second; then src1 and src2; with a scalar half the scalar
destination follows, then the third source (already fetched in the
MULADDv case).  Statistics updates happen in the C call order:
dst, src1, src2, then the scalar destination, then src3. -/
def instr_emit_alu (instr : IrInstruction) (info0 : IrShaderInfo) :
    instr_alu_t × IrShaderInfo :=
  let dst_reg := reg_at instr 0
  let muladd := instr.alu.vector_opc = VectorOpc.MULADDv
  let src1_reg := if muladd then reg_at instr 2 else reg_at instr 1
  let src2_reg := if muladd then reg_at instr 3 else reg_at instr 2
  let info := reg_update_stats dst_reg info0 true
  let info := reg_update_stats src1_reg info false
  let info := reg_update_stats src2_reg info false
  let (s1num, s1swiz, s1neg, s1abs, s1sel) := alu_src_fields src1_reg
  let (s2num, s2swiz, s2neg, s2abs, s2sel) := alu_src_fields src2_reg
  let base : instr_alu_t :=
    { vector_dest := dst_reg.num
      export_data := dst_reg.flags.isExport
      vector_write_mask := reg_alu_dst_swiz dst_reg
      vector_opc := instr_vector_opc instr
      src1_reg := s1num
      src1_swiz := s1swiz
      src1_reg_negate := s1neg
      src1_reg_abs := s1abs
      src1_sel := s1sel
      src2_reg := s2num
      src2_swiz := s2swiz
      src2_reg_negate := s2neg
      src2_reg_abs := s2abs
      src2_sel := s2sel
      scalar_dest := 0
      scalar_write_mask := 0
      scalar_opc := ScalarOpc.MAXs
      src3_reg := 0
      src3_swiz := 0
      src3_reg_negate := false
      src3_reg_abs := false
      src3_sel := false }
  match instr.alu.scalar_opc with
  | some _ =>
    let sdst_reg := if muladd then reg_at instr 4 else reg_at instr 3
    let info := reg_update_stats sdst_reg info true
    let src3_reg := if muladd then reg_at instr 1 else reg_at instr 4
    let info := reg_update_stats src3_reg info false
    let (s3num, s3swiz, s3neg, s3abs, s3sel) := alu_src_fields src3_reg
    ({ base with
        scalar_dest := sdst_reg.num
        scalar_write_mask := reg_alu_dst_swiz sdst_reg
        scalar_opc := instr_scalar_opc instr
        src3_reg := s3num
        src3_swiz := s3swiz
        src3_reg_negate := s3neg
        src3_reg_abs := s3abs
        src3_sel := s3sel }, info)
  | none =>
    if muladd then
      let src3_reg := reg_at instr 1
      let info := reg_update_stats src3_reg info false
      let (s3num, s3swiz, s3neg, s3abs, s3sel) := alu_src_fields src3_reg
      ({ base with
          src3_reg := s3num
          src3_swiz := s3swiz
          src3_reg_negate := s3neg
          src3_reg_abs := s3abs
          src3_sel := s3sel }, info)
    else
      ({ base with src3_sel := true }, info)

/-- One emitted 3-word group: every emitter of ir.c writes exactly three
32-bit words and advances the output pointer by 3.  An ALU group carries
the `instr_alu_t` record; its serialization into the three words is the
bitfield layout of `instr.h`, outside the sources treated here. -/
inductive EmitChunk
  | cfWords (d0 d1 d2 : Nat)
  | fetchWords (d0 d1 d2 : Nat)
  | aluWords (a : instr_alu_t)
deriving DecidableEq, Repr

/-- The `instr_emit` dispatcher: FETCH and ALU succeed (their emitters
always return 0); any other tag makes it return -1, modelled as `none`. -/
def instr_emit (instr : IrInstruction) (idx : Nat) (info : IrShaderInfo) :
    Option (EmitChunk × IrShaderInfo) :=
  match instr.instr_type with
  | InstrKind.T_FETCH =>
    let ((d0, d1, d2), info2) := instr_emit_fetch instr idx info
    some (EmitChunk.fetchWords d0 d1 d2, info2)
  | InstrKind.T_ALU =>
    let (a, info2) := instr_emit_alu instr info
    some (EmitChunk.aluWords a, info2)
  | InstrKind.T_OTHER => none

/-- Second pass of `ir_shader_assemble`: emit the CF program in pairs
(the clause count is even by then, so the one-element case never
arises). -/
def cf_emit_pairs : List IrCF → List EmitChunk
  | cf1 :: cf2 :: rest =>
    let (d0, d1, d2) := cf_emit cf1 cf2
    EmitChunk.cfWords d0 d1 d2 :: cf_emit_pairs rest
  | _ => []

/-- The inner loop of the third pass over one EXEC clause's instructions:
threads the global instruction index and the statistics, stops at the
first failing `instr_emit` (the boolean is the success flag). -/
def emit_exec_instrs : List IrInstruction → Nat → IrShaderInfo →
    List EmitChunk × Nat × IrShaderInfo × Bool
  | [], idx, info => ([], idx, info, true)
  | instr :: rest, idx, info =>
    match instr_emit instr idx info with
    | none => ([], idx, info, false)
    | some (ch, info2) =>
      let (chs, idx3, info3, ok) := emit_exec_instrs rest (idx + 1) info2
      (ch :: chs, idx3, info3, ok)

/-- The outer loop of the third pass: only EXEC/EXEC_END clauses emit
instructions; a failure aborts the remaining clauses. -/
def emit_cfs_instrs : List IrCF → Nat → IrShaderInfo →
    List EmitChunk × Nat × IrShaderInfo × Bool
  | [], idx, info => ([], idx, info, true)
  | cf :: rest, idx, info =>
    if is_exec_cf cf then
      let (chs, idx2, info2, ok) := emit_exec_instrs cf.exec_instrs idx info
      if ok then
        let (chs2, idx3, info3, ok2) := emit_cfs_instrs rest idx2 info2
        (chs ++ chs2, idx3, info3, ok2)
      else
        (chs, idx2, info2, false)
    else
      emit_cfs_instrs rest idx info

/-- The NOP clause `ir_cf_create(shader, T_NOP)` appends: freshly
allocated from the zeroed arena, so every payload field is zero. -/
def ir_cf_nop : IrCF :=
  { cf_type := CfType.T_NOP, exec_addr := 0, exec_cnt := 0,
    exec_sequence := 0, exec_instrs := [], alloc_size := 0,
    alloc_type := AllocType.T_COORD }

/-- The clause list after the evenness fix-up of `ir_shader_assemble`:
`if (cfs_count != ALIGN(cfs_count, 2)) ir_cf_create(shader, T_NOP);`
appends one NOP clause exactly when the count is odd. -/
def padded_cfs (s : IrShader) : List IrCF :=
  if s.cfs.length % 2 = 1 then s.cfs ++ [ir_cf_nop] else s.cfs

/-- The statistics initialisation at the top of `ir_shader_assemble`. -/
def info_init : IrShaderInfo :=
  { max_reg := -1, max_input_reg := 0, regs_written := 0 }

/-- The top-level `ir_shader_assemble`: pad to an even clause count,
resolve, emit the CF pairs, then emit the instructions of the EXEC
clauses.  The result is the C return value (word count, or -1 from a
failed `instr_emit` — `shader_resolve` and `cf_emit` always return 0),
the 3-word groups written to the caller's buffer in order, and the
statistics record. -/
def ir_shader_assemble (s : IrShader) : Int × List EmitChunk × IrShaderInfo :=
  let resolved := shader_resolve { cfs := padded_cfs s }
  let cfChunks := cf_emit_pairs resolved.cfs
  let (iChunks, _, info, ok) := emit_cfs_instrs resolved.cfs 0 info_init
  let chunks := cfChunks ++ iChunks
  (if ok then ((3 * chunks.length : Nat) : Int) else -1, chunks, info)

/-- Total number of instructions inside EXEC/EXEC_END clauses. -/
def total_exec_instrs (cfs : List IrCF) : Nat :=
  (cfs.map (fun cf => if is_exec_cf cf then cf.exec_instrs.length else 0)).sum

/-! Sample IR objects used by the witness theorems. -/

def fetch0 : IrFetchInfo :=
  { opc := FetchOpc.T_VERTEX, constant := 0, sign := FetchSign.T_SIGNED,
    fmt := 2, stride := 12 }

def alu0 : IrAluInfo :=
  { vector_opc := VectorOpc.ADDv, scalar_opc := none }

/-- A FETCH instruction with the sync flag set. -/
def instrF : IrInstruction :=
  { instr_type := InstrKind.T_FETCH, sync := true, regs := [],
    fetch := fetch0, alu := alu0 }

/-- An ALU instruction without sync. -/
def instrA : IrInstruction :=
  { instr_type := InstrKind.T_ALU, sync := false, regs := [],
    fetch := fetch0, alu := alu0 }

/-- An EXEC clause holding a FETCH-with-sync followed by an ALU. -/
def cfE : IrCF :=
  { cf_type := CfType.T_EXEC, exec_addr := 0, exec_cnt := 0,
    exec_sequence := 0, exec_instrs := [instrF, instrA], alloc_size := 0,
    alloc_type := AllocType.T_COORD }

/-- Target lane values of the claim's rotational swizzle description:
x maps to 0, y to 1, z to 2, w to 3. -/
def swiz_target (c : Char) : Int :=
  match c with
  | 'x' => 0
  | 'y' => 1
  | 'z' => 2
  | 'w' => 3
  | _ => 0

/-- Spec-side transformation for claim C10: replace an identity source
swizzle string by an absent one, leaving everything else unchanged. -/
def normalize_identity_swizzle (r : IrRegister) : IrRegister :=
  if r.swizzle = some ['x', 'y', 'z', 'w'] then { r with swizzle := none }
  else r

/-- An EXEC_END clause holding one ALU instruction. -/
def cfEnd : IrCF :=
  { cf_type := CfType.T_EXEC_END, exec_addr := 0, exec_cnt := 0,
    exec_sequence := 0, exec_instrs := [instrA], alloc_size := 0,
    alloc_type := AllocType.T_COORD }

/-- A two-clause shader: EXEC of two instructions, then EXEC_END of one. -/
def sampleShader : IrShader := { cfs := [cfE, cfEnd] }

/-- The instruction tags `instr_emit` accepts (its switch has cases only
for T_FETCH and T_ALU). -/
def instr_valid (instr : IrInstruction) : Bool :=
  match instr.instr_type with
  | InstrKind.T_OTHER => false
  | _ => true

/-- The instructions the third assembly pass visits, in visit order:
those of the EXEC/EXEC_END clauses. -/
def exec_flat : List IrCF → List IrInstruction
  | [] => []
  | cf :: rest => (if is_exec_cf cf then cf.exec_instrs else []) ++ exec_flat rest

/-- An ALLOC COORD clause of size 4. -/
def cfAlloc : IrCF :=
  { cf_type := CfType.T_ALLOC, exec_addr := 0, exec_cnt := 0,
    exec_sequence := 0, exec_instrs := [], alloc_size := 4,
    alloc_type := AllocType.T_COORD }

/-- The sample EXEC clause with resolved addr/cnt/sequence values. -/
def cfE2 : IrCF :=
  { cfE with exec_addr := 1, exec_cnt := 2, exec_sequence := 3 }

/-- A VERTEX fetch instruction with destination R2.xyzw and source R1.x. -/
def instrFV : IrInstruction :=
  { instr_type := InstrKind.T_FETCH, sync := false,
    regs := [⟨2, ⟨false, false, false, false⟩, some ['x', 'y', 'z', 'w']⟩,
             ⟨1, ⟨false, false, false, false⟩, some ['x']⟩],
    fetch := fetch0, alu := alu0 }

/-! Statistics trace: emission is a sequence of `reg_update_stats` calls;
we record each call as an event and characterise the folded result. -/

/-- One `reg_update_stats` call: which register, and whether it was a
destination. -/
structure StatEvent where
  reg : IrRegister
  dest : Bool
deriving DecidableEq, Repr

/-- Replay one recorded call. -/
def apply_event (info : IrShaderInfo) (e : StatEvent) : IrShaderInfo :=
  reg_update_stats e.reg info e.dest

/-- Replay a recorded call sequence. -/
def run_events (info : IrShaderInfo) (es : List StatEvent) : IrShaderInfo :=
  es.foldl apply_event info

/-- Registers the statistics track: neither CONST nor EXPORT. -/
def is_tracked (r : IrRegister) : Bool :=
  !(r.flags.isConst || r.flags.isExport)

/-- A tracked write of register n (sets bit n of regs_written). -/
def is_write_event (n : Nat) (e : StatEvent) : Bool :=
  e.dest && is_tracked e.reg && (e.reg.num == n)

/-- A tracked read of register n. -/
def is_read_event (n : Nat) (e : StatEvent) : Bool :=
  !e.dest && is_tracked e.reg && (e.reg.num == n)

/-- The register numbers read before being written, scanning the trace
with the written-set w: the spec's description of how max_input_reg is
fed. -/
def read_before_write_nums : List StatEvent → Nat → List Nat
  | [], _ => []
  | e :: rest, w =>
    if is_tracked e.reg then
      if e.dest then read_before_write_nums rest (w ||| (1 <<< e.reg.num))
      else if w.testBit e.reg.num = false then
        e.reg.num :: read_before_write_nums rest w
      else read_before_write_nums rest w
    else read_before_write_nums rest w

/-- Register n is read at some position of the trace with no tracked
write of n strictly before it. -/
def read_before_write (es : List StatEvent) (n : Nat) : Prop :=
  ∃ j e, es.get? j = some e ∧ is_read_event n e = true ∧
    (es.take j).all (fun e2 => !is_write_event n e2) = true

/-- The statistics calls of an ALU instruction, in the C call order:
dst, src1, src2, then the scalar destination, then the third source. -/
def alu_stat_events (instr : IrInstruction) : List StatEvent :=
  let muladd := instr.alu.vector_opc = VectorOpc.MULADDv
  let src1 := if muladd then reg_at instr 2 else reg_at instr 1
  let src2 := if muladd then reg_at instr 3 else reg_at instr 2
  match instr.alu.scalar_opc with
  | some _ =>
    [⟨reg_at instr 0, true⟩, ⟨src1, false⟩, ⟨src2, false⟩,
     ⟨if muladd then reg_at instr 4 else reg_at instr 3, true⟩,
     ⟨if muladd then reg_at instr 1 else reg_at instr 4, false⟩]
  | none =>
    if muladd then
      [⟨reg_at instr 0, true⟩, ⟨src1, false⟩, ⟨src2, false⟩,
       ⟨reg_at instr 1, false⟩]
    else
      [⟨reg_at instr 0, true⟩, ⟨src1, false⟩, ⟨src2, false⟩]

/-- The statistics calls one emitted instruction performs. -/
def instr_stat_events (instr : IrInstruction) : List StatEvent :=
  match instr.instr_type with
  | InstrKind.T_FETCH => [⟨reg_at instr 0, true⟩, ⟨reg_at instr 1, false⟩]
  | InstrKind.T_ALU => alu_stat_events instr
  | InstrKind.T_OTHER => []

/-- The statistics calls of the whole instruction pass, in order. -/
def events_of_instrs : List IrInstruction → List StatEvent
  | [] => []
  | i :: rest => instr_stat_events i ++ events_of_instrs rest

/-- A plain register R2 with no flags and no swizzle. -/
def regW : IrRegister := ⟨2, ⟨false, false, false, false⟩, none⟩

/-! Bit-packing helper lemmas: or-ing a value into a word region whose
bits are still zero is addition. -/

theorem lor_eq_add_of_land_eq_zero (a : Nat) :
    ∀ b : Nat, a &&& b = 0 → a ||| b = a + b := by
  induction a using Nat.binaryRec with
  | z => intro b _; simp
  | f ba a' ih =>
    intro b hb
    induction b using Nat.bitCasesOn with
    | h bb b' =>
      rw [Nat.land_bit, Nat.bit_eq_zero_iff] at hb
      obtain ⟨h1, h2⟩ := hb
      rw [Nat.lor_bit, ih b' h1, Nat.bit_val, Nat.bit_val, Nat.bit_val]
      rcases ba with _ | _ <;> rcases bb with _ | _ <;> simp_all <;> omega

/-- Or-ing `v <<< k` into `a` is addition provided `v` fits in `w` bits
and the window `[k, k+w)` of `a` is still zero. -/
theorem lor_window_add (a v k w : Nat) (hv : v < 2 ^ w)
    (ha : (a >>> k) % 2 ^ w = 0) : a ||| (v <<< k) = a + v * 2 ^ k := by
  have hland : a &&& (v <<< k) = 0 := by
    apply Nat.eq_of_testBit_eq
    intro i
    simp only [Nat.testBit_land, Nat.testBit_shiftLeft, Nat.zero_testBit]
    rcases lt_or_le i k with h | h
    · simp [Nat.not_le.mpr h]
    · rcases lt_or_le i (k + w) with h2 | h2
      · have hfa : a.testBit i = false := by
          have e1 : a.testBit i = (a >>> k).testBit (i - k) := by
            rw [Nat.testBit_shiftRight]
            congr 1
            omega
          have e2 : (a >>> k).testBit (i - k) =
              ((a >>> k) % 2 ^ w).testBit (i - k) := by
            rw [Nat.testBit_mod_two_pow]
            simp [show i - k < w by omega]
          rw [e1, e2, ha]
          simp
        simp [hfa]
      · have hfv : v.testBit (i - k) = false := by
          apply Nat.testBit_eq_false_of_lt
          calc v < 2 ^ w := hv
            _ ≤ 2 ^ (i - k) := Nat.pow_le_pow_right (by norm_num) (by omega)
        simp [hfv]
  rw [lor_eq_add_of_land_eq_zero _ _ hland, Nat.shiftLeft_eq]

/-- Special case: the accumulated word is entirely below the new field. -/
theorem lor_shift_add (lo hi k : Nat) (h : lo < 2 ^ k) :
    lo ||| (hi <<< k) = lo + hi * 2 ^ k := by
  apply lor_window_add lo hi k (hi + 1) (by have := Nat.lt_two_pow hi; omega)
  rw [Nat.shiftRight_eq_div_pow, Nat.div_eq_of_lt h]
  simp

/-- Bound for the shift-then-or accumulation step of the swizzle
encoders. -/
theorem shift_lor_lt (s v k m : Nat) (hs : s < 2 ^ m) (hv : v < 2 ^ k) :
    ((s <<< k) ||| v) < 2 ^ (k + m) := by
  rw [Nat.lor_comm, lor_shift_add v s k hv, pow_add]
  have h1 : s + 1 ≤ 2 ^ m := hs
  calc v + s * 2 ^ k < (s + 1) * 2 ^ k := by
        nlinarith [Nat.pos_pow_of_pos k (show 0 < 2 by norm_num)]
    _ ≤ 2 ^ m * 2 ^ k := Nat.mul_le_mul_right _ h1
    _ = 2 ^ k * 2 ^ m := by ring

/-- The shift-then-or accumulation step of the encoders, as addition. -/
theorem or_step (w s v : Nat) (hv : v < 2 ^ w) :
    (s <<< w) ||| v = v + s * 2 ^ w := by
  rw [Nat.lor_comm]
  exact lor_shift_add v s w hv

theorem fetch_swiz_val_lt (c : Char) : fetch_swiz_val c < 2 ^ 2 := by
  simp only [fetch_swiz_val]
  split <;> norm_num

theorem fetch_dst_swiz_val_lt (c : Char) : fetch_dst_swiz_val c < 2 ^ 3 := by
  simp only [fetch_dst_swiz_val]
  split <;> norm_num

theorem alu_src_val_lt (c : Char) (i : Nat) : alu_src_val c i < 2 ^ 2 := by
  simp only [alu_src_val]
  have h4 : (0 : Int) < 4 := by norm_num
  have := Int.emod_lt_of_pos ((match c with
    | 'y' => (0x1 : Int) | 'z' => 0x2 | 'w' => 0x3 | _ => 0x0) - (i : Int)) h4
  have := Int.emod_nonneg ((match c with
    | 'y' => (0x1 : Int) | 'z' => 0x2 | 'w' => 0x3 | _ => 0x0) - (i : Int))
    (by norm_num : (4 : Int) ≠ 0)
  omega

/-- Closed form of the fetch-destination swizzle encoder on a present
swizzle string. -/
theorem reg_fetch_dst_swiz_some (num : Nat) (flags : RegFlags)
    (chars : List Char) :
    reg_fetch_dst_swiz ⟨num, flags, some chars⟩ =
      fetch_dst_swiz_val (chars.getD 0 'x') +
      8 * fetch_dst_swiz_val (chars.getD 1 'x') +
      64 * fetch_dst_swiz_val (chars.getD 2 'x') +
      512 * fetch_dst_swiz_val (chars.getD 3 'x') := by
  simp only [reg_fetch_dst_swiz]
  rw [show (List.range 4).reverse = [3, 2, 1, 0] from rfl]
  simp only [List.foldl]
  rw [or_step 3 _ _ (fetch_dst_swiz_val_lt _), or_step 3 _ _ (fetch_dst_swiz_val_lt _),
      or_step 3 _ _ (fetch_dst_swiz_val_lt _), or_step 3 _ _ (fetch_dst_swiz_val_lt _)]
  ring

theorem reg_fetch_dst_swiz_lt (reg : IrRegister) :
    reg_fetch_dst_swiz reg < 2 ^ 12 := by
  match reg with
  | ⟨num, flags, none⟩ => norm_num [reg_fetch_dst_swiz]
  | ⟨num, flags, some chars⟩ =>
    rw [reg_fetch_dst_swiz_some]
    have h0 := fetch_dst_swiz_val_lt (chars.getD 0 'x')
    have h1 := fetch_dst_swiz_val_lt (chars.getD 1 'x')
    have h2 := fetch_dst_swiz_val_lt (chars.getD 2 'x')
    have h3 := fetch_dst_swiz_val_lt (chars.getD 3 'x')
    norm_num at *
    omega

/-- The one-channel fetch-source swizzle is just the value of channel 0. -/
theorem reg_fetch_src_swiz_one (reg : IrRegister) :
    reg_fetch_src_swiz reg 1 =
      fetch_swiz_val ((reg.swizzle.getD []).getD 0 'x') := by
  simp only [reg_fetch_src_swiz]
  rw [show (List.range 1).reverse = [0] from rfl]
  simp only [List.foldl]
  simp

theorem reg_fetch_src_swiz_one_lt (reg : IrRegister) :
    reg_fetch_src_swiz reg 1 < 2 ^ 2 := by
  rw [reg_fetch_src_swiz_one]
  exact fetch_swiz_val_lt _

/-- Closed form of the ALU-source swizzle encoder on a present swizzle
string. -/
theorem reg_alu_src_swiz_some (num : Nat) (flags : RegFlags)
    (chars : List Char) :
    reg_alu_src_swiz ⟨num, flags, some chars⟩ =
      alu_src_val (chars.getD 0 'x') 0 +
      4 * alu_src_val (chars.getD 1 'x') 1 +
      16 * alu_src_val (chars.getD 2 'x') 2 +
      64 * alu_src_val (chars.getD 3 'x') 3 := by
  simp only [reg_alu_src_swiz]
  rw [show (List.range 4).reverse = [3, 2, 1, 0] from rfl]
  simp only [List.foldl]
  rw [or_step 2 _ _ (alu_src_val_lt _ _), or_step 2 _ _ (alu_src_val_lt _ _),
      or_step 2 _ _ (alu_src_val_lt _ _), or_step 2 _ _ (alu_src_val_lt _ _)]
  ring

theorem or_one (x : Nat) (h : x % 2 = 0) : x ||| 1 = x + 1 := by
  have e : (1 : Nat) = 1 <<< 0 := rfl
  conv_lhs => rw [e]
  rw [lor_window_add x 1 0 1 (by norm_num)
    (by rw [Nat.shiftRight_eq_div_pow]; simpa using h)]
  norm_num

theorem or_two (x : Nat) (h : x % 4 < 2) : x ||| 2 = x + 2 := by
  have e : (2 : Nat) = 1 <<< 1 := rfl
  conv_lhs => rw [e]
  rw [lor_window_add x 1 1 1 (by norm_num)
    (by rw [Nat.shiftRight_eq_div_pow]; omega)]
  norm_num

/-- One sequence step, as arithmetic: shift the accumulator up two bits
and put the (FETCH, sync) pair in the low two. -/
theorem seq_step_eq (s : Nat) (a : IrInstruction) :
    seq_step s a =
      4 * s + ((if a.instr_type = InstrKind.T_FETCH then 1 else 0) +
        2 * (if a.sync then 1 else 0)) := by
  have hs4 : s <<< 2 = 4 * s := by rw [Nat.shiftLeft_eq]; ring
  have ho1 : 4 * s ||| 1 = 4 * s + 1 := or_one (4 * s) (by omega)
  have ho2 : 4 * s ||| 2 = 4 * s + 2 := or_two (4 * s) (by omega)
  have ho3 : (4 * s + 1) ||| 2 = 4 * s + 3 := by
    rw [or_two (4 * s + 1) (by omega)]
  unfold seq_step
  by_cases hf : a.instr_type = InstrKind.T_FETCH <;> by_cases hy : a.sync <;>
    simp only [hf, hy, if_true, if_false, hs4, ho1, ho2, ho3] <;> simp

theorem calc_sequence_nil : calc_sequence [] = 0 := rfl

/-- Peeling the first instruction off the sequence loop: the loop runs
last-to-first, so the head instruction lands in the low bit pair. -/
theorem calc_sequence_cons (a : IrInstruction) (l : List IrInstruction) :
    calc_sequence (a :: l) =
      4 * calc_sequence l +
        ((if a.instr_type = InstrKind.T_FETCH then 1 else 0) +
         2 * (if a.sync then 1 else 0)) := by
  unfold calc_sequence
  rw [List.reverse_cons, List.foldl_append]
  simp only [List.foldl]
  exact seq_step_eq _ a

theorem calc_sequence_lt (l : List IrInstruction) :
    calc_sequence l < 4 ^ l.length := by
  induction l with
  | nil => simp [calc_sequence_nil]
  | cons a l ih =>
    rw [calc_sequence_cons, List.length_cons, pow_succ]
    have : (if a.instr_type = InstrKind.T_FETCH then 1 else 0) +
        2 * (if a.sync then 1 else 0) ≤ 3 := by
      split <;> split <;> norm_num
    omega

/-- Bit-pair characterisation of the computed sequence: instruction k's
FETCH flag sits at bit 2k and its sync flag at bit 2k+1. -/
theorem calc_sequence_testBit (l : List IrInstruction) :
    ∀ k : Nat, ∀ hk : k < l.length,
      (calc_sequence l).testBit (2 * k) =
        decide ((l.get ⟨k, hk⟩).instr_type = InstrKind.T_FETCH) ∧
      (calc_sequence l).testBit (2 * k + 1) = (l.get ⟨k, hk⟩).sync := by
  induction l with
  | nil => intro k hk; simp at hk
  | cons a l ih =>
    intro k hk
    rw [calc_sequence_cons]
    set p := (if a.instr_type = InstrKind.T_FETCH then 1 else 0) +
      2 * (if a.sync then 1 else 0) with hp
    match k with
    | 0 =>
      simp only [List.get]
      constructor
      · rw [Nat.testBit_to_div_mod]
        by_cases hf : a.instr_type = InstrKind.T_FETCH <;>
          by_cases hy : a.sync <;> simp [hf, hy, hp] <;> omega
      · rw [Nat.testBit_to_div_mod]
        by_cases hf : a.instr_type = InstrKind.T_FETCH <;>
          by_cases hy : a.sync <;> simp [hf, hy, hp] <;> omega
    | k + 1 =>
      have hk2 : k < l.length := by simpa using Nat.lt_of_succ_lt_succ hk
      have hpb : p ≤ 3 := by rw [hp]; split <;> split <;> norm_num
      have hdiv : ∀ j, (4 * calc_sequence l + p) / 2 ^ (j + 2) =
          calc_sequence l / 2 ^ j := by
        intro j
        have e1 : (2 : Nat) ^ (j + 2) = 4 * 2 ^ j := by ring
        rw [e1, ← Nat.div_div_eq_div_mul]
        congr 1
        omega
      have e2 : 2 * (k + 1) = 2 * k + 2 := by ring
      have e3 : 2 * (k + 1) + 1 = (2 * k + 1) + 2 := by ring
      obtain ⟨ih1, ih2⟩ := ih k hk2
      constructor
      · rw [e2, Nat.testBit_to_div_mod, hdiv (2 * k), ← Nat.testBit_to_div_mod,
          ih1]
        simp
      · rw [e3, Nat.testBit_to_div_mod, hdiv (2 * k + 1), ← Nat.testBit_to_div_mod,
          ih2]
        simp

/-- C4: for every EXEC or EXEC_END clause, the resolver computes a 16-bit
sequence such that for every instruction k of the clause (0-based from
the first instruction), bit 2k of the sequence is 1 iff instruction k is
a FETCH, and bit 2k+1 is 1 iff instruction k has its sync flag set. -/
theorem C4_sequence_bits (cf : IrCF) (addr k : Nat)
    (hexec : is_exec_cf cf = true) (hk : k < cf.exec_instrs.length)
    (hlen : cf.exec_instrs.length ≤ 8) :
    ((resolve_cf addr cf).2.exec_sequence).testBit (2 * k) =
      decide ((cf.exec_instrs.get ⟨k, hk⟩).instr_type = InstrKind.T_FETCH) ∧
    ((resolve_cf addr cf).2.exec_sequence).testBit (2 * k + 1) =
      (cf.exec_instrs.get ⟨k, hk⟩).sync ∧
    (resolve_cf addr cf).2.exec_sequence < 2 ^ 16 := by
  have hres : (resolve_cf addr cf).2.exec_sequence =
      calc_sequence cf.exec_instrs := by
    simp [resolve_cf, hexec]
  obtain ⟨h1, h2⟩ := calc_sequence_testBit cf.exec_instrs k hk
  refine ⟨by rw [hres, h1], by rw [hres, h2], ?_⟩
  rw [hres]
  calc calc_sequence cf.exec_instrs < 4 ^ cf.exec_instrs.length :=
        calc_sequence_lt _
    _ ≤ 4 ^ 8 := Nat.pow_le_pow_right (by norm_num) hlen
    _ = 2 ^ 16 := by norm_num

theorem C4_sequence_bits_witness :
    ((resolve_cf 5 cfE).2.exec_sequence).testBit (2 * 0) =
      decide ((cfE.exec_instrs.get ⟨0, by decide⟩).instr_type =
        InstrKind.T_FETCH) ∧
    ((resolve_cf 5 cfE).2.exec_sequence).testBit (2 * 0 + 1) =
      (cfE.exec_instrs.get ⟨0, by decide⟩).sync ∧
    (resolve_cf 5 cfE).2.exec_sequence < 2 ^ 16 :=
  C4_sequence_bits cfE 5 0 (by decide) (by decide) (by decide)

/-- C5: with a 4-character swizzle whose every position is the identity
character or an underscore, bit i of the ALU write-mask is 1 iff
character i is the identity character "xyzw"[i]; with no swizzle the
mask is 0xf. -/
theorem C5_alu_dst_swiz (num : Nat) (flags : RegFlags) (chars : List Char)
    (hlen : chars.length = 4)
    (hvalid : ∀ i, i < 4 →
      chars.getD i 'x' = identity_char i ∨ chars.getD i 'x' = '_') :
    (∀ i, i < 4 →
      (reg_alu_dst_swiz ⟨num, flags, some chars⟩).testBit i =
        decide (chars.getD i 'x' = identity_char i)) ∧
    reg_alu_dst_swiz ⟨num, flags, none⟩ = 0xf := by
  constructor
  · intro i hi
    rcases chars with _ | ⟨c0, _ | ⟨c1, _ | ⟨c2, _ | ⟨c3, _ | ⟨c4, rest⟩⟩⟩⟩⟩ <;>
      try simp at hlen
    have h0 := hvalid 0 (by norm_num)
    have h1 := hvalid 1 (by norm_num)
    have h2 := hvalid 2 (by norm_num)
    have h3 := hvalid 3 (by norm_num)
    simp [identity_char] at h0 h1 h2 h3
    interval_cases i <;> rcases h0 with h0 | h0 <;> rcases h1 with h1 | h1 <;>
      rcases h2 with h2 | h2 <;> rcases h3 with h3 | h3 <;> subst_vars <;>
      simp only [reg_alu_dst_swiz] <;> decide
  · simp only [reg_alu_dst_swiz]

theorem C5_alu_dst_swiz_witness :
    (∀ i, i < 4 →
      (reg_alu_dst_swiz ⟨3, ⟨false, false, false, false⟩,
          some ['x', '_', 'z', '_']⟩).testBit i =
        decide ((['x', '_', 'z', '_'] : List Char).getD i 'x' =
          identity_char i)) ∧
    reg_alu_dst_swiz ⟨3, ⟨false, false, false, false⟩, none⟩ = 0xf :=
  C5_alu_dst_swiz 3 ⟨false, false, false, false⟩ ['x', '_', 'z', '_']
    (by decide) (by decide)

/-- C6: with a 4-character swizzle over x/y/z/w, channel i of the 8-bit
ALU source swizzle (bits 2i and 2i+1) holds `(target - i) mod 4`; with
no swizzle the value is 0. -/
theorem C6_alu_src_swiz (num : Nat) (flags : RegFlags) (chars : List Char)
    (hlen : chars.length = 4)
    (hvalid : ∀ i, i < 4 →
      chars.getD i 'x' = 'x' ∨ chars.getD i 'x' = 'y' ∨
      chars.getD i 'x' = 'z' ∨ chars.getD i 'x' = 'w') :
    (∀ i, i < 4 →
      (((reg_alu_src_swiz ⟨num, flags, some chars⟩ >>> (2 * i)) % 4 : Nat) : Int) =
        (swiz_target (chars.getD i 'x') - (i : Int)) % 4) ∧
    reg_alu_src_swiz ⟨num, flags, none⟩ = 0 := by
  constructor
  · intro i hi
    rcases chars with _ | ⟨c0, _ | ⟨c1, _ | ⟨c2, _ | ⟨c3, _ | ⟨c4, rest⟩⟩⟩⟩⟩ <;>
      try simp at hlen
    have h0 := hvalid 0 (by norm_num)
    have h1 := hvalid 1 (by norm_num)
    have h2 := hvalid 2 (by norm_num)
    have h3 := hvalid 3 (by norm_num)
    simp at h0 h1 h2 h3
    interval_cases i <;>
      rcases h0 with h0 | h0 | h0 | h0 <;>
      rcases h1 with h1 | h1 | h1 | h1 <;>
      rcases h2 with h2 | h2 | h2 | h2 <;>
      rcases h3 with h3 | h3 | h3 | h3 <;> subst_vars <;>
      simp only [reg_alu_src_swiz] <;> decide
  · simp only [reg_alu_src_swiz]

theorem C6_alu_src_swiz_witness :
    (∀ i, i < 4 →
      (((reg_alu_src_swiz ⟨1, ⟨false, false, false, false⟩,
            some ['w', 'x', 'y', 'z']⟩ >>> (2 * i)) % 4 : Nat) : Int) =
        (swiz_target ((['w', 'x', 'y', 'z'] : List Char).getD i 'x') -
          (i : Int)) % 4) ∧
    reg_alu_src_swiz ⟨1, ⟨false, false, false, false⟩, none⟩ = 0 :=
  C6_alu_src_swiz 1 ⟨false, false, false, false⟩ ['w', 'x', 'y', 'z']
    (by decide) (by decide)

theorem normalize_num (r : IrRegister) :
    (normalize_identity_swizzle r).num = r.num := by
  unfold normalize_identity_swizzle
  split <;> rfl

theorem normalize_flags (r : IrRegister) :
    (normalize_identity_swizzle r).flags = r.flags := by
  unfold normalize_identity_swizzle
  split <;> rfl

theorem normalize_alu_src_swiz (r : IrRegister) :
    reg_alu_src_swiz (normalize_identity_swizzle r) = reg_alu_src_swiz r := by
  unfold normalize_identity_swizzle
  split
  · rename_i h
    obtain ⟨num, flags, sw⟩ := r
    simp only at h
    subst h
    simp only [reg_alu_src_swiz]
    decide
  · rfl

theorem normalize_alu_dst_swiz (r : IrRegister) :
    reg_alu_dst_swiz (normalize_identity_swizzle r) = reg_alu_dst_swiz r := by
  unfold normalize_identity_swizzle
  split
  · rename_i h
    obtain ⟨num, flags, sw⟩ := r
    simp only at h
    subst h
    simp only [reg_alu_dst_swiz]
    decide
  · rfl

theorem normalize_stats (r : IrRegister) (info : IrShaderInfo) (d : Bool) :
    reg_update_stats (normalize_identity_swizzle r) info d =
      reg_update_stats r info d := by
  unfold normalize_identity_swizzle
  split <;> rfl

theorem normalize_alu_src_fields (r : IrRegister) :
    alu_src_fields (normalize_identity_swizzle r) = alu_src_fields r := by
  unfold alu_src_fields
  rw [normalize_alu_src_swiz, normalize_num, normalize_flags]

theorem getD_map_normalize (o : Option IrRegister) :
    (Option.map normalize_identity_swizzle o).getD dummy_reg =
      normalize_identity_swizzle (o.getD dummy_reg) := by
  cases o
  · simp
    decide
  · simp

/-- C10: `reg_alu_src_swiz` maps the identity swizzle "xyzw" to 0, the
value it also returns for an absent swizzle, so the ALU emitter encodes
an instruction identically whether its registers carry identity swizzles
or no swizzles at all. -/
theorem C10_identity_swiz (num : Nat) (flags : RegFlags)
    (instr : IrInstruction) (info : IrShaderInfo) :
    reg_alu_src_swiz ⟨num, flags, some ['x', 'y', 'z', 'w']⟩ = 0 ∧
    reg_alu_src_swiz ⟨num, flags, none⟩ = 0 ∧
    instr_emit_alu
        { instr with regs := instr.regs.map normalize_identity_swizzle }
        info =
      instr_emit_alu instr info := by
  refine ⟨by simp only [reg_alu_src_swiz]; decide,
    by simp only [reg_alu_src_swiz], ?_⟩
  obtain ⟨ty, sy, regs, fe, al⟩ := instr
  obtain ⟨vopc, sopc⟩ := al
  cases sopc <;> by_cases hm : vopc = VectorOpc.MULADDv <;>
    simp [instr_emit_alu, reg_at, instr_vector_opc, instr_scalar_opc, hm,
      getD_map_normalize, normalize_alu_src_fields, normalize_num,
      normalize_flags, normalize_alu_dst_swiz, normalize_stats]

/-! Resolver structure lemmas. -/

theorem resolve_cfs_cons (addr : Nat) (cf : IrCF) (rest : List IrCF) :
    resolve_cfs addr (cf :: rest) =
      (resolve_cf addr cf).2 :: resolve_cfs (resolve_cf addr cf).1 rest := rfl

theorem resolve_cf_fst (addr : Nat) (cf : IrCF) :
    (resolve_cf addr cf).1 =
      addr + (if is_exec_cf cf then cf.exec_instrs.length else 0) := by
  unfold resolve_cf
  split <;> simp_all

theorem resolve_cf_cf_type (addr : Nat) (cf : IrCF) :
    (resolve_cf addr cf).2.cf_type = cf.cf_type := by
  unfold resolve_cf
  split <;> rfl

theorem resolve_cf_is_exec (addr : Nat) (cf : IrCF) :
    is_exec_cf (resolve_cf addr cf).2 = is_exec_cf cf := by
  unfold is_exec_cf
  rw [resolve_cf_cf_type]

theorem resolve_cf_exec_instrs (addr : Nat) (cf : IrCF) :
    (resolve_cf addr cf).2.exec_instrs = cf.exec_instrs := by
  unfold resolve_cf
  split <;> rfl

theorem resolve_cfs_length (addr : Nat) (cfs : List IrCF) :
    (resolve_cfs addr cfs).length = cfs.length := by
  induction cfs generalizing addr with
  | nil => rfl
  | cons cf rest ih => rw [resolve_cfs_cons]; simp [ih]

theorem total_exec_instrs_nil : total_exec_instrs [] = 0 := rfl

theorem total_exec_instrs_cons (cf : IrCF) (rest : List IrCF) :
    total_exec_instrs (cf :: rest) =
      (if is_exec_cf cf then cf.exec_instrs.length else 0) +
        total_exec_instrs rest := by
  simp [total_exec_instrs]

/-- The resolved clause at index i is the original clause resolved at the
starting address plus the number of EXEC instructions strictly before
index i (non-EXEC clauses contribute nothing to the address). -/
theorem resolve_cfs_getD (cfs : List IrCF) :
    ∀ addr i, i < cfs.length →
      (resolve_cfs addr cfs).getD i ir_cf_nop =
        (resolve_cf (addr + total_exec_instrs (cfs.take i))
          (cfs.getD i ir_cf_nop)).2 := by
  induction cfs with
  | nil => intro addr i hi; simp at hi
  | cons cf rest ih =>
    intro addr i hi
    rw [resolve_cfs_cons]
    match i with
    | 0 => simp [total_exec_instrs_nil]
    | i + 1 =>
      rw [List.getD_cons_succ, List.getD_cons_succ,
        ih _ i (by simpa using Nat.lt_of_succ_lt_succ hi)]
      congr 1
      rw [resolve_cf_fst]
      rw [show (cf :: rest).take (i + 1) = cf :: rest.take i from rfl,
        total_exec_instrs_cons]
      ring

theorem shader_resolve_length (s : IrShader) :
    (shader_resolve s).cfs.length = s.cfs.length := by
  unfold shader_resolve
  simp [resolve_cfs_length]

/-- C3: after resolving a shader with an even clause count, the running
address starts at cfs_count/2; each EXEC/EXEC_END clause in order gets
that running address as `exec.addr` and its instruction count as
`exec.cnt`, after which the address advances by the instruction count;
clauses of any other kind are untouched (and leave the address alone). -/
theorem C3_resolver_addresses (s : IrShader) (heven : s.cfs.length % 2 = 0)
    (i : Nat) (hi : i < s.cfs.length) :
    (shader_resolve s).cfs.length = s.cfs.length ∧
    (is_exec_cf (s.cfs.getD i ir_cf_nop) = true →
      ((shader_resolve s).cfs.getD i ir_cf_nop).exec_addr =
        s.cfs.length / 2 + total_exec_instrs (s.cfs.take i) ∧
      ((shader_resolve s).cfs.getD i ir_cf_nop).exec_cnt =
        (s.cfs.getD i ir_cf_nop).exec_instrs.length) ∧
    (is_exec_cf (s.cfs.getD i ir_cf_nop) = false →
      (shader_resolve s).cfs.getD i ir_cf_nop = s.cfs.getD i ir_cf_nop) := by
  have hget : (shader_resolve s).cfs.getD i ir_cf_nop =
      (resolve_cf (s.cfs.length / 2 + total_exec_instrs (s.cfs.take i))
        (s.cfs.getD i ir_cf_nop)).2 := by
    unfold shader_resolve
    exact resolve_cfs_getD s.cfs (s.cfs.length / 2) i hi
  refine ⟨shader_resolve_length s, ?_, ?_⟩
  · intro hexec
    rw [hget]
    unfold resolve_cf
    rw [if_pos hexec]
    exact ⟨rfl, rfl⟩
  · intro hnone
    have hcond : ¬ (is_exec_cf (s.cfs.getD i ir_cf_nop) = true) := by
      rw [hnone]
      simp
    rw [hget]
    unfold resolve_cf
    rw [if_neg hcond]

theorem C3_resolver_addresses_witness :
    (shader_resolve sampleShader).cfs.length = sampleShader.cfs.length ∧
    (is_exec_cf (sampleShader.cfs.getD 1 ir_cf_nop) = true →
      ((shader_resolve sampleShader).cfs.getD 1 ir_cf_nop).exec_addr =
        sampleShader.cfs.length / 2 +
          total_exec_instrs (sampleShader.cfs.take 1) ∧
      ((shader_resolve sampleShader).cfs.getD 1 ir_cf_nop).exec_cnt =
        (sampleShader.cfs.getD 1 ir_cf_nop).exec_instrs.length) ∧
    (is_exec_cf (sampleShader.cfs.getD 1 ir_cf_nop) = false →
      (shader_resolve sampleShader).cfs.getD 1 ir_cf_nop =
        sampleShader.cfs.getD 1 ir_cf_nop) :=
  C3_resolver_addresses sampleShader (by decide) 1 (by decide)

theorem instr_emit_eq_none_iff (instr : IrInstruction) (idx : Nat)
    (info : IrShaderInfo) :
    instr_emit instr idx info = none ↔ instr_valid instr = false := by
  cases h : instr.instr_type <;> simp [instr_emit, instr_valid, h]

theorem takeWhile_length_le {α : Type} (p : α → Bool) (l : List α) :
    (l.takeWhile p).length ≤ l.length := by
  induction l with
  | nil => simp
  | cons a t ih =>
    by_cases h : p a = true <;> simp [List.takeWhile_cons, h] <;> omega

theorem takeWhile_length_eq_iff_all {α : Type} (p : α → Bool) (l : List α) :
    ((l.takeWhile p).length = l.length) ↔ l.all p := by
  induction l with
  | nil => simp
  | cons a t ih =>
    have ht := takeWhile_length_le p t
    by_cases h : p a = true <;> simp [List.takeWhile_cons, h, ih] <;>
      all_goals omega

/-- Behaviour of the inner instruction loop: it emits one 3-word chunk
per instruction up to the first invalid one, advances the global index
accordingly, and succeeds iff every instruction is valid. -/
theorem emit_exec_instrs_spec (instrs : List IrInstruction) :
    ∀ idx info,
      (emit_exec_instrs instrs idx info).1.length =
        (instrs.takeWhile instr_valid).length ∧
      (emit_exec_instrs instrs idx info).2.2.2 = instrs.all instr_valid ∧
      (emit_exec_instrs instrs idx info).2.1 =
        idx + (instrs.takeWhile instr_valid).length := by
  induction instrs with
  | nil => intro idx info; simp [emit_exec_instrs]
  | cons instr rest ih =>
    intro idx info
    by_cases hv : instr_valid instr = true
    · have hne : instr_emit instr idx info ≠ none := by
        rw [Ne, instr_emit_eq_none_iff]
        simp [hv]
      obtain ⟨p, hp⟩ := Option.ne_none_iff_exists.mp (by exact hne)
      obtain ⟨ch, info2⟩ := p
      obtain ⟨ih1, ih2, ih3⟩ := ih (idx + 1) info2
      simp [emit_exec_instrs, ← hp, List.takeWhile_cons, hv, ih1, ih2, ih3]
      omega
    · have hnone : instr_emit instr idx info = none := by
        rw [instr_emit_eq_none_iff]
        simpa using hv
      simp [emit_exec_instrs, hnone, List.takeWhile_cons, hv]

/-- Behaviour of the outer instruction pass over the clause list. -/
theorem emit_cfs_instrs_spec (cfs : List IrCF) :
    ∀ idx info,
      (emit_cfs_instrs cfs idx info).1.length =
        ((exec_flat cfs).takeWhile instr_valid).length ∧
      (emit_cfs_instrs cfs idx info).2.2.2 = (exec_flat cfs).all instr_valid := by
  induction cfs with
  | nil => intro idx info; simp [emit_cfs_instrs, exec_flat]
  | cons cf rest ih =>
    intro idx info
    by_cases hex : is_exec_cf cf = true
    · obtain ⟨h1, h2, h3⟩ := emit_exec_instrs_spec cf.exec_instrs idx info
      obtain ⟨ih1, ih2⟩ := ih (emit_exec_instrs cf.exec_instrs idx info).2.1
        (emit_exec_instrs cf.exec_instrs idx info).2.2.1
      by_cases hok : (emit_exec_instrs cf.exec_instrs idx info).2.2.2 = true
      · have hall : cf.exec_instrs.all instr_valid = true := h2 ▸ hok
        have hlen : (cf.exec_instrs.takeWhile instr_valid).length =
            cf.exec_instrs.length := (takeWhile_length_eq_iff_all _ _).mpr hall
        constructor
        · simp only [emit_cfs_instrs, hex, if_true, hok, exec_flat]
          rw [List.takeWhile_append, if_pos hlen]
          simp only [List.length_append, h1, ih1, hlen]
        · simp only [emit_cfs_instrs, hex, if_true, hok, exec_flat]
          rw [List.all_append, hall, ih2]
          simp
      · have hallf : cf.exec_instrs.all instr_valid = false := by
          rw [← h2]
          simpa using hok
        have hlen : ¬ ((cf.exec_instrs.takeWhile instr_valid).length =
            cf.exec_instrs.length) := by
          rw [takeWhile_length_eq_iff_all, hallf]
          simp
        constructor
        · simp only [emit_cfs_instrs, hex, if_true, hok, if_false, exec_flat]
          rw [List.takeWhile_append, if_neg hlen]
          simpa using h1
        · simp only [emit_cfs_instrs, hex, if_true, hok, if_false, exec_flat]
          rw [List.all_append, hallf]
          simpa using hok
    · simp [emit_cfs_instrs, hex, exec_flat, ih idx info]

theorem cf_emit_pairs_length : ∀ l : List IrCF,
    (cf_emit_pairs l).length = l.length / 2
  | [] => by simp [cf_emit_pairs]
  | [cf] => by simp [cf_emit_pairs]
  | cf1 :: cf2 :: rest => by
    have := cf_emit_pairs_length rest
    simp only [cf_emit_pairs, List.length_cons]
    omega

theorem exec_flat_append (l1 l2 : List IrCF) :
    exec_flat (l1 ++ l2) = exec_flat l1 ++ exec_flat l2 := by
  induction l1 with
  | nil => simp [exec_flat]
  | cons cf rest ih => simp [exec_flat, ih]

theorem exec_flat_length (cfs : List IrCF) :
    (exec_flat cfs).length = total_exec_instrs cfs := by
  induction cfs with
  | nil => simp [exec_flat, total_exec_instrs_nil]
  | cons cf rest ih =>
    rw [total_exec_instrs_cons]
    by_cases hex : is_exec_cf cf = true <;> simp [exec_flat, hex, ih]

theorem exec_flat_resolve (cfs : List IrCF) : ∀ addr,
    exec_flat (resolve_cfs addr cfs) = exec_flat cfs := by
  induction cfs with
  | nil => intro addr; rfl
  | cons cf rest ih =>
    intro addr
    rw [resolve_cfs_cons]
    show (if is_exec_cf (resolve_cf addr cf).2 then _ else _) ++ _ = _
    rw [resolve_cf_is_exec, resolve_cf_exec_instrs, ih]
    rfl

theorem padded_cfs_length (s : IrShader) :
    (padded_cfs s).length =
      if s.cfs.length % 2 = 1 then s.cfs.length + 1 else s.cfs.length := by
  unfold padded_cfs
  split <;> simp_all

theorem padded_cfs_even (s : IrShader) : (padded_cfs s).length % 2 = 0 := by
  rw [padded_cfs_length]
  split <;> omega

theorem exec_flat_padded (s : IrShader) :
    exec_flat (padded_cfs s) = exec_flat s.cfs := by
  unfold padded_cfs
  split
  · rw [exec_flat_append]
    simp [exec_flat, ir_cf_nop, is_exec_cf]
  · rfl

/-- Components of `ir_shader_assemble`, separated for the proofs: the
emitted chunk list splits into CF-pair chunks and instruction chunks, and
the return value is 3 words per chunk on success, -1 on failure. -/
theorem ir_shader_assemble_parts (s : IrShader) :
    (ir_shader_assemble s).2.1 =
      cf_emit_pairs (shader_resolve { cfs := padded_cfs s }).cfs ++
        (emit_cfs_instrs (shader_resolve { cfs := padded_cfs s }).cfs 0
          info_init).1 ∧
    (ir_shader_assemble s).1 =
      (if (emit_cfs_instrs (shader_resolve { cfs := padded_cfs s }).cfs 0
          info_init).2.2.2 = true
       then ((3 * (ir_shader_assemble s).2.1.length : Nat) : Int)
       else -1) ∧
    (ir_shader_assemble s).2.2 =
      (emit_cfs_instrs (shader_resolve { cfs := padded_cfs s }).cfs 0
        info_init).2.2.1 := by
  unfold ir_shader_assemble
  refine ⟨rfl, ?_, rfl⟩
  by_cases hok : (emit_cfs_instrs (shader_resolve { cfs := padded_cfs s }).cfs 0
      info_init).2.2.2 = true <;> simp [hok]

/-- C1: with every instruction of a well-formed shader being FETCH or
ALU, `ir_shader_assemble` returns 3 * (ceil(cfs_count / 2) +
total_exec_instructions), where cfs_count is the clause count before
assembly; an odd clause count gets exactly one NOP clause appended so the
count is even at assembly time. -/
theorem C1_word_count (s : IrShader)
    (hvalid : (exec_flat s.cfs).all instr_valid = true) :
    (ir_shader_assemble s).1 =
      ((3 * ((s.cfs.length + 1) / 2 + total_exec_instrs s.cfs) : Nat) : Int) ∧
    (padded_cfs s).length % 2 = 0 ∧
    (s.cfs.length % 2 = 1 → padded_cfs s = s.cfs ++ [ir_cf_nop]) ∧
    (s.cfs.length % 2 ≠ 1 → padded_cfs s = s.cfs) := by
  obtain ⟨hchunks, hret, hinfo⟩ := ir_shader_assemble_parts s
  have hflat : exec_flat (shader_resolve { cfs := padded_cfs s }).cfs =
      exec_flat s.cfs := by
    unfold shader_resolve
    rw [exec_flat_resolve, exec_flat_padded]
  obtain ⟨hlen, hok⟩ := emit_cfs_instrs_spec
    (shader_resolve { cfs := padded_cfs s }).cfs 0 info_init
  have hokT : (emit_cfs_instrs (shader_resolve { cfs := padded_cfs s }).cfs 0
      info_init).2.2.2 = true := by
    rw [hok, hflat, hvalid]
  have htw : ((exec_flat s.cfs).takeWhile instr_valid).length =
      (exec_flat s.cfs).length :=
    (takeWhile_length_eq_iff_all _ _).mpr hvalid
  refine ⟨?_, padded_cfs_even s, ?_, ?_⟩
  · rw [hret, if_pos hokT, hchunks]
    congr 2
    rw [List.length_append, cf_emit_pairs_length, shader_resolve_length,
      hlen, hflat, htw, exec_flat_length, padded_cfs_length]
    split <;> omega
  · intro hodd
    unfold padded_cfs
    rw [if_pos hodd]
  · intro hev
    unfold padded_cfs
    rw [if_neg hev]

theorem C1_word_count_witness :
    (ir_shader_assemble sampleShader).1 =
      ((3 * ((sampleShader.cfs.length + 1) / 2 +
        total_exec_instrs sampleShader.cfs) : Nat) : Int) ∧
    (padded_cfs sampleShader).length % 2 = 0 ∧
    (sampleShader.cfs.length % 2 = 1 →
      padded_cfs sampleShader = sampleShader.cfs ++ [ir_cf_nop]) ∧
    (sampleShader.cfs.length % 2 ≠ 1 →
      padded_cfs sampleShader = sampleShader.cfs) :=
  C1_word_count sampleShader (by decide)

/-- C9: `cf_emit` and `shader_resolve` always succeed, so the only
failure is `instr_emit` returning -1 on an instruction that is neither
FETCH nor ALU; the assembler then returns -1, having emitted all CF pairs
and exactly the instructions before the failing one, and on success it
returns exactly the number of words written (3 per emitted group). -/
theorem C9_error_propagation (s : IrShader) :
    (ir_shader_assemble s).2.1.length =
      (padded_cfs s).length / 2 +
        ((exec_flat s.cfs).takeWhile instr_valid).length ∧
    (ir_shader_assemble s).1 =
      (if (exec_flat s.cfs).all instr_valid = true
       then ((3 * (ir_shader_assemble s).2.1.length : Nat) : Int)
       else -1) := by
  obtain ⟨hchunks, hret, hinfo⟩ := ir_shader_assemble_parts s
  have hflat : exec_flat (shader_resolve { cfs := padded_cfs s }).cfs =
      exec_flat s.cfs := by
    unfold shader_resolve
    rw [exec_flat_resolve, exec_flat_padded]
  obtain ⟨hlen, hok⟩ := emit_cfs_instrs_spec
    (shader_resolve { cfs := padded_cfs s }).cfs 0 info_init
  constructor
  · rw [hchunks, List.length_append, cf_emit_pairs_length,
      shader_resolve_length, hlen, hflat]
  · rw [hret]
    by_cases hall : (exec_flat s.cfs).all instr_valid = true
    · rw [if_pos (by rw [hok, hflat]; exact hall), if_pos hall]
    · rw [if_neg (by rw [hok, hflat]; exact hall), if_neg hall]

/-! Word-shape lemmas for `cf_emit`: each or-chain it builds equals the
sum of its disjoint shifted fields. -/

theorem pack_d0_exec (a c q : Nat) (ha : a ≤ 0xfff) (hc : c ≤ 0xf)
    (hq : q ≤ 0xffff) :
    ((0 ||| a) ||| (c <<< 12)) ||| (q <<< 16) =
      a + c * 2 ^ 12 + q * 2 ^ 16 := by
  rw [Nat.zero_or]
  rw [lor_window_add a c 12 4 (by omega)
    (by rw [Nat.shiftRight_eq_div_pow]; omega)]
  rw [lor_window_add _ q 16 16 (by omega)
    (by rw [Nat.shiftRight_eq_div_pow]; omega)]

theorem pack_B_alloc (nib : Nat) (hn : nib ≤ 4) :
    (0 ||| (0xc <<< 12)) ||| (nib <<< 8) = nib * 2 ^ 8 + 0xc * 2 ^ 12 := by
  rw [Nat.zero_or]
  rw [lor_window_add (0xc <<< 12) nib 8 4 (by omega)
    (by rw [Nat.shiftRight_eq_div_pow, Nat.shiftLeft_eq]; omega)]
  rw [Nat.shiftLeft_eq]
  ring

theorem pack_d1_cf2_exec (X a2 c2 : Nat) (hX : X < 2 ^ 16) (ha2 : a2 ≤ 0xfff)
    (hc2 : c2 ≤ 0xf) :
    (X ||| (a2 <<< 16)) ||| (c2 <<< 28) = X + a2 * 2 ^ 16 + c2 * 2 ^ 28 := by
  rw [lor_window_add X a2 16 12 (by omega)
    (by rw [Nat.shiftRight_eq_div_pow]; omega)]
  rw [lor_window_add _ c2 28 4 (by omega)
    (by rw [Nat.shiftRight_eq_div_pow]; omega)]

theorem pack_d1_cf2_alloc (X z2 : Nat) (hX : X < 2 ^ 16) (hz2 : z2 ≤ 0xfff) :
    X ||| (z2 <<< 16) = X + z2 * 2 ^ 16 := by
  rw [lor_window_add X z2 16 12 (by omega)
    (by rw [Nat.shiftRight_eq_div_pow]; omega)]

theorem pack_d2_exec (op2v q2 : Nat) (hq2 : q2 ≤ 0xffff) :
    (0 ||| (op2v <<< 28)) ||| (q2 <<< 0) = q2 + op2v * 2 ^ 28 := by
  rw [Nat.zero_or]
  rw [lor_window_add (op2v <<< 28) q2 0 16 (by omega)
    (by rw [Nat.shiftRight_eq_div_pow, Nat.shiftLeft_eq]; omega)]
  rw [Nat.shiftLeft_eq]
  ring

theorem pack_d2_alloc (op2v nib2 : Nat) (hn : nib2 ≤ 4) :
    (0 ||| (op2v <<< 28)) ||| (nib2 <<< 24) =
      nib2 * 2 ^ 24 + op2v * 2 ^ 28 := by
  rw [Nat.zero_or]
  rw [lor_window_add (op2v <<< 28) nib2 24 4 (by omega)
    (by rw [Nat.shiftRight_eq_div_pow, Nat.shiftLeft_eq]; omega)]
  rw [Nat.shiftLeft_eq]
  ring

/-- C2: `cf_emit` packs the pair (cf1, cf2) into three words with cf1's
op at word1 bits 12..15 and cf2's op at word2 bits 28..31 (opcodes
NOP=0x0, EXEC=0x1, EXEC_END=0x2, ALLOC=0xC); cf1's (addr, cnt, sequence)
at word0 bits 0..11 / 12..15 / 16..31 and cf2's at word1 bits 16..27 /
word1 bits 28..31 / word2 bits 0..15; for ALLOC the size sits where addr
would and the type nibble (0x2 for COORD, else 0x4) at word1 bits 8..11
for cf1 and word2 bits 24..27 for cf2.  The sum-of-disjoint-fields form
asserts that every unassigned bit is 0. -/
theorem C2_cf_pair_packing (cf1 cf2 : IrCF)
    (h1e : is_exec_cf cf1 = true →
      cf1.exec_addr ≤ 0xfff ∧ cf1.exec_cnt ≤ 0xf ∧ cf1.exec_sequence ≤ 0xffff)
    (h1a : cf1.cf_type = CfType.T_ALLOC → cf1.alloc_size ≤ 0xfff)
    (h2e : is_exec_cf cf2 = true →
      cf2.exec_addr ≤ 0xfff ∧ cf2.exec_cnt ≤ 0xf ∧ cf2.exec_sequence ≤ 0xffff)
    (h2a : cf2.cf_type = CfType.T_ALLOC → cf2.alloc_size ≤ 0xfff) :
    cf_op cf1 = (match cf1.cf_type with
      | CfType.T_NOP => 0x0
      | CfType.T_EXEC => 0x1
      | CfType.T_EXEC_END => 0x2
      | CfType.T_ALLOC => 0xc) ∧
    cf_emit cf1 cf2 =
      ((match cf1.cf_type with
        | CfType.T_EXEC | CfType.T_EXEC_END =>
          cf1.exec_addr + cf1.exec_cnt * 2 ^ 12 + cf1.exec_sequence * 2 ^ 16
        | CfType.T_ALLOC => cf1.alloc_size
        | CfType.T_NOP => 0),
       (match cf1.cf_type with
        | CfType.T_ALLOC =>
          (if cf1.alloc_type = AllocType.T_COORD then 0x2 else 0x4) * 2 ^ 8
        | _ => 0) + cf_op cf1 * 2 ^ 12 +
       (match cf2.cf_type with
        | CfType.T_EXEC | CfType.T_EXEC_END =>
          cf2.exec_addr * 2 ^ 16 + cf2.exec_cnt * 2 ^ 28
        | CfType.T_ALLOC => cf2.alloc_size * 2 ^ 16
        | CfType.T_NOP => 0),
       (match cf2.cf_type with
        | CfType.T_EXEC | CfType.T_EXEC_END => cf2.exec_sequence
        | CfType.T_ALLOC =>
          (if cf2.alloc_type = AllocType.T_COORD then 0x2 else 0x4) * 2 ^ 24
        | CfType.T_NOP => 0) + cf_op cf2 * 2 ^ 28) := by
  obtain ⟨t1, a1, c1, q1, il1, z1, aty1⟩ := cf1
  obtain ⟨t2, a2, c2, q2, il2, z2, aty2⟩ := cf2
  have hnib1 : (if aty1 = AllocType.T_COORD then 0x2 else 0x4) ≤ 4 := by
    split <;> norm_num
  have hnib2 : (if aty2 = AllocType.T_COORD then 0x2 else 0x4) ≤ 4 := by
    split <;> norm_num
  cases t1 <;> cases t2 <;> refine ⟨rfl, ?_⟩ <;>
    simp only [cf_emit, cf_op, Prod.mk.injEq]
  -- NOP.NOP
  · simp
  -- NOP.EXEC
  · obtain ⟨ha2, hc2, hq2⟩ := h2e rfl
    refine ⟨by simp, ?_, ?_⟩
    · rw [pack_d1_cf2_exec _ a2 c2 (by decide) ha2 hc2]
      simp [Nat.shiftLeft_eq]
      try omega
    · rw [pack_d2_exec 1 q2 hq2]
  -- NOP.EXEC_END
  · obtain ⟨ha2, hc2, hq2⟩ := h2e rfl
    refine ⟨by simp, ?_, ?_⟩
    · rw [pack_d1_cf2_exec _ a2 c2 (by decide) ha2 hc2]
      simp [Nat.shiftLeft_eq]
      try omega
    · rw [pack_d2_exec 2 q2 hq2]
  -- NOP.ALLOC
  · have hz2 := h2a rfl
    refine ⟨by simp, ?_, ?_⟩
    · rw [pack_d1_cf2_alloc _ z2 (by decide) hz2]
      simp [Nat.shiftLeft_eq]
      try omega
    · rw [pack_d2_alloc 12 _ hnib2]
  -- EXEC.NOP
  · obtain ⟨ha1, hc1, hq1⟩ := h1e rfl
    refine ⟨pack_d0_exec a1 c1 q1 ha1 hc1 hq1, ?_, by simp⟩
    simp [Nat.shiftLeft_eq]
  -- EXEC.EXEC
  · obtain ⟨ha1, hc1, hq1⟩ := h1e rfl
    obtain ⟨ha2, hc2, hq2⟩ := h2e rfl
    refine ⟨pack_d0_exec a1 c1 q1 ha1 hc1 hq1, ?_, ?_⟩
    · rw [pack_d1_cf2_exec _ a2 c2 (by decide) ha2 hc2]
      simp [Nat.shiftLeft_eq]
      try omega
    · rw [pack_d2_exec 1 q2 hq2]
  -- EXEC.EXEC_END
  · obtain ⟨ha1, hc1, hq1⟩ := h1e rfl
    obtain ⟨ha2, hc2, hq2⟩ := h2e rfl
    refine ⟨pack_d0_exec a1 c1 q1 ha1 hc1 hq1, ?_, ?_⟩
    · rw [pack_d1_cf2_exec _ a2 c2 (by decide) ha2 hc2]
      simp [Nat.shiftLeft_eq]
      try omega
    · rw [pack_d2_exec 2 q2 hq2]
  -- EXEC.ALLOC
  · obtain ⟨ha1, hc1, hq1⟩ := h1e rfl
    have hz2 := h2a rfl
    refine ⟨pack_d0_exec a1 c1 q1 ha1 hc1 hq1, ?_, ?_⟩
    · rw [pack_d1_cf2_alloc _ z2 (by decide) hz2]
      simp [Nat.shiftLeft_eq]
      try omega
    · rw [pack_d2_alloc 12 _ hnib2]
  -- EXEC_END.NOP
  · obtain ⟨ha1, hc1, hq1⟩ := h1e rfl
    refine ⟨pack_d0_exec a1 c1 q1 ha1 hc1 hq1, ?_, by simp⟩
    simp [Nat.shiftLeft_eq]
  -- EXEC_END.EXEC
  · obtain ⟨ha1, hc1, hq1⟩ := h1e rfl
    obtain ⟨ha2, hc2, hq2⟩ := h2e rfl
    refine ⟨pack_d0_exec a1 c1 q1 ha1 hc1 hq1, ?_, ?_⟩
    · rw [pack_d1_cf2_exec _ a2 c2 (by decide) ha2 hc2]
      simp [Nat.shiftLeft_eq]
      try omega
    · rw [pack_d2_exec 1 q2 hq2]
  -- EXEC_END.EXEC_END
  · obtain ⟨ha1, hc1, hq1⟩ := h1e rfl
    obtain ⟨ha2, hc2, hq2⟩ := h2e rfl
    refine ⟨pack_d0_exec a1 c1 q1 ha1 hc1 hq1, ?_, ?_⟩
    · rw [pack_d1_cf2_exec _ a2 c2 (by decide) ha2 hc2]
      simp [Nat.shiftLeft_eq]
      try omega
    · rw [pack_d2_exec 2 q2 hq2]
  -- EXEC_END.ALLOC
  · obtain ⟨ha1, hc1, hq1⟩ := h1e rfl
    have hz2 := h2a rfl
    refine ⟨pack_d0_exec a1 c1 q1 ha1 hc1 hq1, ?_, ?_⟩
    · rw [pack_d1_cf2_alloc _ z2 (by decide) hz2]
      simp [Nat.shiftLeft_eq]
      try omega
    · rw [pack_d2_alloc 12 _ hnib2]
  -- ALLOC.NOP
  · have hz1 := h1a rfl
    refine ⟨by simp, ?_, by simp⟩
    rw [pack_B_alloc _ hnib1]
    simp [Nat.shiftLeft_eq]
    try omega
  -- ALLOC.EXEC
  · have hz1 := h1a rfl
    obtain ⟨ha2, hc2, hq2⟩ := h2e rfl
    refine ⟨by simp, ?_, ?_⟩
    · rw [pack_B_alloc _ hnib1,
        pack_d1_cf2_exec _ a2 c2 (by omega) ha2 hc2]
      try omega
    · rw [pack_d2_exec 1 q2 hq2]
  -- ALLOC.EXEC_END
  · have hz1 := h1a rfl
    obtain ⟨ha2, hc2, hq2⟩ := h2e rfl
    refine ⟨by simp, ?_, ?_⟩
    · rw [pack_B_alloc _ hnib1,
        pack_d1_cf2_exec _ a2 c2 (by omega) ha2 hc2]
      try omega
    · rw [pack_d2_exec 2 q2 hq2]
  -- ALLOC.ALLOC
  · have hz1 := h1a rfl
    have hz2 := h2a rfl
    refine ⟨by simp, ?_, ?_⟩
    · rw [pack_B_alloc _ hnib1,
        pack_d1_cf2_alloc _ z2 (by omega) hz2]
      try omega
    · rw [pack_d2_alloc 12 _ hnib2]

theorem C2_cf_pair_packing_witness :
    cf_op cfAlloc = 0xc ∧
    cf_emit cfAlloc cfE2 =
      (cfAlloc.alloc_size,
       (if cfAlloc.alloc_type = AllocType.T_COORD then 0x2 else 0x4) * 2 ^ 8 +
         cf_op cfAlloc * 2 ^ 12 +
         (cfE2.exec_addr * 2 ^ 16 + cfE2.exec_cnt * 2 ^ 28),
       cfE2.exec_sequence + cf_op cfE2 * 2 ^ 28) :=
  C2_cf_pair_packing cfAlloc cfE2
    (by intro hc; exact absurd hc (by decide)) (by intro _; decide)
    (by intro _; exact ⟨by decide, by decide, by decide⟩)
    (by intro hc; exact absurd hc (by decide))

/-- Word 0 of a VERTEX fetch as a sum of its disjoint fields. -/
theorem fetch_d0_sum (opcv src dst cst sw b0 : Nat) (hopcv : opcv ≤ 1)
    (hsrc : src ≤ 0x3f) (hdst : dst ≤ 0x3f) (hcst : cst ≤ 0xf) (hsw : sw < 4)
    (hb0 : b0 ≤ 1) :
    ((((((((0 ||| (opcv <<< 0)) ||| (src <<< 5)) ||| (dst <<< 12)) |||
      (cst <<< 20)) ||| (sw <<< 25)) ||| (1 <<< 19)) ||| (1 <<< 24)) |||
      (1 <<< 28)) ||| (b0 <<< 27) =
      opcv + src * 2 ^ 5 + dst * 2 ^ 12 + 2 ^ 19 + cst * 2 ^ 20 + 2 ^ 24 +
        sw * 2 ^ 25 + b0 * 2 ^ 27 + 2 ^ 28 := by
  have e1 : (0 : Nat) ||| (opcv <<< 0) = 0 + opcv * 2 ^ 0 :=
    lor_window_add 0 opcv 0 1 (by omega)
      (by rw [Nat.shiftRight_eq_div_pow]; omega)
  have e2 : (0 + opcv * 2 ^ 0) ||| (src <<< 5) =
      0 + opcv * 2 ^ 0 + src * 2 ^ 5 :=
    lor_window_add _ src 5 6 (by omega)
      (by rw [Nat.shiftRight_eq_div_pow]; omega)
  have e3 : (0 + opcv * 2 ^ 0 + src * 2 ^ 5) ||| (dst <<< 12) =
      0 + opcv * 2 ^ 0 + src * 2 ^ 5 + dst * 2 ^ 12 :=
    lor_window_add _ dst 12 6 (by omega)
      (by rw [Nat.shiftRight_eq_div_pow]; omega)
  have e4 : (0 + opcv * 2 ^ 0 + src * 2 ^ 5 + dst * 2 ^ 12) ||| (cst <<< 20) =
      0 + opcv * 2 ^ 0 + src * 2 ^ 5 + dst * 2 ^ 12 + cst * 2 ^ 20 :=
    lor_window_add _ cst 20 4 (by omega)
      (by rw [Nat.shiftRight_eq_div_pow]; omega)
  have e5 : (0 + opcv * 2 ^ 0 + src * 2 ^ 5 + dst * 2 ^ 12 + cst * 2 ^ 20) |||
      (sw <<< 25) =
      0 + opcv * 2 ^ 0 + src * 2 ^ 5 + dst * 2 ^ 12 + cst * 2 ^ 20 +
        sw * 2 ^ 25 :=
    lor_window_add _ sw 25 2 (by omega)
      (by rw [Nat.shiftRight_eq_div_pow]; omega)
  have e6 : (0 + opcv * 2 ^ 0 + src * 2 ^ 5 + dst * 2 ^ 12 + cst * 2 ^ 20 +
      sw * 2 ^ 25) ||| (1 <<< 19) =
      0 + opcv * 2 ^ 0 + src * 2 ^ 5 + dst * 2 ^ 12 + cst * 2 ^ 20 +
        sw * 2 ^ 25 + 1 * 2 ^ 19 :=
    lor_window_add _ 1 19 1 (by omega)
      (by rw [Nat.shiftRight_eq_div_pow]; omega)
  have e7 : (0 + opcv * 2 ^ 0 + src * 2 ^ 5 + dst * 2 ^ 12 + cst * 2 ^ 20 +
      sw * 2 ^ 25 + 1 * 2 ^ 19) ||| (1 <<< 24) =
      0 + opcv * 2 ^ 0 + src * 2 ^ 5 + dst * 2 ^ 12 + cst * 2 ^ 20 +
        sw * 2 ^ 25 + 1 * 2 ^ 19 + 1 * 2 ^ 24 :=
    lor_window_add _ 1 24 1 (by omega)
      (by rw [Nat.shiftRight_eq_div_pow]; omega)
  have e8 : (0 + opcv * 2 ^ 0 + src * 2 ^ 5 + dst * 2 ^ 12 + cst * 2 ^ 20 +
      sw * 2 ^ 25 + 1 * 2 ^ 19 + 1 * 2 ^ 24) ||| (1 <<< 28) =
      0 + opcv * 2 ^ 0 + src * 2 ^ 5 + dst * 2 ^ 12 + cst * 2 ^ 20 +
        sw * 2 ^ 25 + 1 * 2 ^ 19 + 1 * 2 ^ 24 + 1 * 2 ^ 28 :=
    lor_window_add _ 1 28 1 (by omega)
      (by rw [Nat.shiftRight_eq_div_pow]; omega)
  have e9 : (0 + opcv * 2 ^ 0 + src * 2 ^ 5 + dst * 2 ^ 12 + cst * 2 ^ 20 +
      sw * 2 ^ 25 + 1 * 2 ^ 19 + 1 * 2 ^ 24 + 1 * 2 ^ 28) ||| (b0 <<< 27) =
      0 + opcv * 2 ^ 0 + src * 2 ^ 5 + dst * 2 ^ 12 + cst * 2 ^ 20 +
        sw * 2 ^ 25 + 1 * 2 ^ 19 + 1 * 2 ^ 24 + 1 * 2 ^ 28 + b0 * 2 ^ 27 :=
    lor_window_add _ b0 27 1 (by omega)
      (by rw [Nat.shiftRight_eq_div_pow]; omega)
  rw [e1, e2, e3, e4, e5, e6, e7, e8, e9]
  omega

/-- Word 1 of a VERTEX fetch as a sum of its disjoint fields. -/
theorem fetch_d1_sum (dsw sgn fmt b1 : Nat) (hdsw : dsw < 2 ^ 12)
    (hsgn : sgn ≤ 1) (hfmt : fmt ≤ 0x3f) (hb1 : b1 ≤ 1) :
    ((((0 ||| (dsw <<< 0)) ||| (sgn <<< 12)) ||| (fmt <<< 16)) |||
      (1 <<< 13)) ||| (b1 <<< 30) =
      dsw + sgn * 2 ^ 12 + 2 ^ 13 + fmt * 2 ^ 16 + b1 * 2 ^ 30 := by
  have e1 : (0 : Nat) ||| (dsw <<< 0) = 0 + dsw * 2 ^ 0 :=
    lor_window_add 0 dsw 0 12 (by omega)
      (by rw [Nat.shiftRight_eq_div_pow]; omega)
  have e2 : (0 + dsw * 2 ^ 0) ||| (sgn <<< 12) =
      0 + dsw * 2 ^ 0 + sgn * 2 ^ 12 :=
    lor_window_add _ sgn 12 1 (by omega)
      (by rw [Nat.shiftRight_eq_div_pow]; omega)
  have e3 : (0 + dsw * 2 ^ 0 + sgn * 2 ^ 12) ||| (fmt <<< 16) =
      0 + dsw * 2 ^ 0 + sgn * 2 ^ 12 + fmt * 2 ^ 16 :=
    lor_window_add _ fmt 16 6 (by omega)
      (by rw [Nat.shiftRight_eq_div_pow]; omega)
  have e4 : (0 + dsw * 2 ^ 0 + sgn * 2 ^ 12 + fmt * 2 ^ 16) ||| (1 <<< 13) =
      0 + dsw * 2 ^ 0 + sgn * 2 ^ 12 + fmt * 2 ^ 16 + 1 * 2 ^ 13 :=
    lor_window_add _ 1 13 1 (by omega)
      (by rw [Nat.shiftRight_eq_div_pow]; omega)
  have e5 : (0 + dsw * 2 ^ 0 + sgn * 2 ^ 12 + fmt * 2 ^ 16 + 1 * 2 ^ 13) |||
      (b1 <<< 30) =
      0 + dsw * 2 ^ 0 + sgn * 2 ^ 12 + fmt * 2 ^ 16 + 1 * 2 ^ 13 +
        b1 * 2 ^ 30 :=
    lor_window_add _ b1 30 1 (by omega)
      (by rw [Nat.shiftRight_eq_div_pow]; omega)
  rw [e1, e2, e3, e4, e5]
  omega

/-- C7: in an emitted VERTEX fetch, word1 bit 30 is set iff idx > 0,
word0 bit 27 is set iff idx = 0, word1 bit 12 is the signedness flag,
word1 bits 16..21 hold the format, word1 bit 13 is set, word0 bits 19,
24 and 28 are set, and word2 holds the stride in bits 0..15. -/
theorem C7_vertex_fetch_bits (instr : IrInstruction) (idx : Nat)
    (info : IrShaderInfo) (hopc : instr.fetch.opc = FetchOpc.T_VERTEX)
    (hdst : (reg_at instr 0).num ≤ 0x3f)
    (hsrc : (reg_at instr 1).num ≤ 0x3f)
    (hconst : instr.fetch.constant ≤ 0xf)
    (hstride : instr.fetch.stride ≤ 0xff)
    (hfmt : instr.fetch.fmt ≤ 0x3f) :
    ((instr_emit_fetch instr idx info).1.2.1).testBit 30 = decide (idx > 0) ∧
    ((instr_emit_fetch instr idx info).1.1).testBit 27 = decide (idx = 0) ∧
    ((instr_emit_fetch instr idx info).1.2.1).testBit 12 =
      decide (instr.fetch.sign = FetchSign.T_SIGNED) ∧
    ((instr_emit_fetch instr idx info).1.2.1 >>> 16) % 2 ^ 6 =
      instr.fetch.fmt ∧
    ((instr_emit_fetch instr idx info).1.2.1).testBit 13 = true ∧
    ((instr_emit_fetch instr idx info).1.1).testBit 19 = true ∧
    ((instr_emit_fetch instr idx info).1.1).testBit 24 = true ∧
    ((instr_emit_fetch instr idx info).1.1).testBit 28 = true ∧
    (instr_emit_fetch instr idx info).1.2.2 = instr.fetch.stride := by
  have hopcv : instr_fetch_opc instr ≤ 1 := by
    simp [instr_fetch_opc, hopc]
  have hsw := reg_fetch_src_swiz_one_lt (reg_at instr 1)
  have hdsw := reg_fetch_dst_swiz_lt (reg_at instr 0)
  have hb0 : (if idx > 0 then 0 else 1) ≤ 1 := by split <;> norm_num
  have hb1 : (if idx > 0 then 1 else 0) ≤ 1 := by split <;> norm_num
  have hsgn : (if instr.fetch.sign = FetchSign.T_SIGNED then 1 else 0) ≤ 1 := by
    split <;> norm_num
  have hd0 : (instr_emit_fetch instr idx info).1.1 =
      instr_fetch_opc instr + (reg_at instr 1).num * 2 ^ 5 +
        (reg_at instr 0).num * 2 ^ 12 + 2 ^ 19 +
        instr.fetch.constant * 2 ^ 20 + 2 ^ 24 +
        reg_fetch_src_swiz (reg_at instr 1) 1 * 2 ^ 25 +
        (if idx > 0 then 0 else 1) * 2 ^ 27 + 2 ^ 28 := by
    simp only [instr_emit_fetch, hopc, if_true]
    rw [fetch_d0_sum _ _ _ _ _ _ hopcv hsrc hdst hconst (by omega) hb0]
  have hd1 : (instr_emit_fetch instr idx info).1.2.1 =
      reg_fetch_dst_swiz (reg_at instr 0) +
        (if instr.fetch.sign = FetchSign.T_SIGNED then 1 else 0) * 2 ^ 12 +
        2 ^ 13 + instr.fetch.fmt * 2 ^ 16 +
        (if idx > 0 then 1 else 0) * 2 ^ 30 := by
    simp only [instr_emit_fetch, hopc, if_true]
    rw [fetch_d1_sum _ _ _ _ hdsw hsgn hfmt hb1]
  have hd2 : (instr_emit_fetch instr idx info).1.2.2 = instr.fetch.stride := by
    simp only [instr_emit_fetch, hopc, if_true]
    simp
  refine ⟨?_, ?_, ?_, ?_, ?_, ?_, ?_, ?_, hd2⟩
  · rw [hd1, Nat.testBit_to_div_mod, decide_eq_decide]
    by_cases hidx : idx > 0 <;> simp only [hidx, if_true, if_false] <;>
      constructor <;> intro h2 <;> first | omega | simpa using h2
  · rw [hd0, Nat.testBit_to_div_mod, decide_eq_decide]
    by_cases hidx : idx > 0 <;> simp only [hidx, if_true, if_false] <;>
      constructor <;> intro h2 <;> first | omega | simp_all | omega
  · rw [hd1, Nat.testBit_to_div_mod, decide_eq_decide]
    by_cases hsig : instr.fetch.sign = FetchSign.T_SIGNED <;>
      simp only [hsig, if_true, if_false] <;> constructor <;> intro h2 <;>
      first | omega | simpa using h2
  · rw [hd1]
    omega
  · rw [hd1, Nat.testBit_to_div_mod]
    simp only [decide_eq_true_eq]
    omega
  · rw [hd0, Nat.testBit_to_div_mod]
    simp only [decide_eq_true_eq]
    omega
  · rw [hd0, Nat.testBit_to_div_mod]
    simp only [decide_eq_true_eq]
    omega
  · rw [hd0, Nat.testBit_to_div_mod]
    simp only [decide_eq_true_eq]
    omega

theorem C7_vertex_fetch_bits_witness :
    ((instr_emit_fetch instrFV 0 info_init).1.2.1).testBit 30 =
      decide ((0 : Nat) > 0) ∧
    ((instr_emit_fetch instrFV 0 info_init).1.1).testBit 27 =
      decide ((0 : Nat) = 0) ∧
    ((instr_emit_fetch instrFV 0 info_init).1.2.1).testBit 12 =
      decide (instrFV.fetch.sign = FetchSign.T_SIGNED) ∧
    ((instr_emit_fetch instrFV 0 info_init).1.2.1 >>> 16) % 2 ^ 6 =
      instrFV.fetch.fmt ∧
    ((instr_emit_fetch instrFV 0 info_init).1.2.1).testBit 13 = true ∧
    ((instr_emit_fetch instrFV 0 info_init).1.1).testBit 19 = true ∧
    ((instr_emit_fetch instrFV 0 info_init).1.1).testBit 24 = true ∧
    ((instr_emit_fetch instrFV 0 info_init).1.1).testBit 28 = true ∧
    (instr_emit_fetch instrFV 0 info_init).1.2.2 = instrFV.fetch.stride :=
  C7_vertex_fetch_bits instrFV 0 info_init (by decide) (by decide) (by decide)
    (by decide) (by decide) (by decide)

theorem testBit_one_shiftLeft (m n : Nat) :
    (1 <<< m).testBit n = decide (m = n) := by
  rw [Nat.testBit_shiftLeft]
  rcases lt_trichotomy m n with h | h | h
  · have : (1 : Nat).testBit (n - m) = false := by
      rw [Nat.testBit_to_div_mod]
      have : (1 : Nat) / 2 ^ (n - m) = 0 := by
        apply Nat.div_eq_of_lt
        have : 0 < n - m := by omega
        calc (1 : Nat) < 2 ^ 1 := by norm_num
          _ ≤ 2 ^ (n - m) := Nat.pow_le_pow_right (by norm_num) (by omega)
      simp [this]
    simp [this, Nat.le_of_lt h]
    omega
  · subst h
    simp
  · simp [show ¬ (n ≥ m) by omega]
    omega

theorem testBit_one (k : Nat) : Nat.testBit 1 k = decide (k = 0) := by
  match k with
  | 0 => decide
  | k + 1 =>
    rw [Nat.testBit_to_div_mod]
    have h1 : (1 : Nat) / 2 ^ (k + 1) = 0 := by
      apply Nat.div_eq_of_lt
      calc (1 : Nat) < 2 ^ 1 := by norm_num
        _ ≤ 2 ^ (k + 1) := Nat.pow_le_pow_right (by norm_num) (by omega)
    simp [h1]

/-- Effect of one call on the written-register bitmap. -/
theorem apply_event_regs_written (info : IrShaderInfo) (e : StatEvent)
    (n : Nat) :
    (apply_event info e).regs_written.testBit n =
      (info.regs_written.testBit n || is_write_event n e) := by
  unfold apply_event reg_update_stats is_write_event is_tracked
  by_cases hT : (e.reg.flags.isConst || e.reg.flags.isExport) = true
  · simp [hT]
  · by_cases hd : e.dest = true
    · have hXY : (decide (e.reg.num ≤ n) && Nat.testBit 1 (n - e.reg.num)) =
          (e.reg.num == n) := by
        rw [testBit_one]
        by_cases hn : e.reg.num = n
        · subst hn
          simp
        · have h1 : (e.reg.num == n) = false := beq_eq_false_iff_ne.mpr hn
          rw [h1]
          by_cases h2 : e.reg.num ≤ n
          · have h3 : ¬ (n - e.reg.num = 0) := by omega
            simp [h2, h3]
          · simp [h2]
      simp [hT, hd, Nat.testBit_lor, Nat.testBit_shiftLeft]
      rw [hXY]
    · simp [hT, hd]
      split <;> rfl

theorem run_events_regs_written (es : List StatEvent) :
    ∀ (info : IrShaderInfo) (n : Nat),
      (run_events info es).regs_written.testBit n =
        (info.regs_written.testBit n || es.any (is_write_event n)) := by
  induction es with
  | nil => intro info n; simp [run_events]
  | cons e rest ih =>
    intro info n
    show (run_events (apply_event info e) rest).regs_written.testBit n = _
    rw [ih (apply_event info e) n, apply_event_regs_written]
    simp [Bool.or_assoc]

theorem land_one_shiftLeft_eq_zero_iff (x n : Nat) :
    (x &&& (1 <<< n) = 0) ↔ x.testBit n = false := by
  rw [Nat.one_shiftLeft, Nat.and_two_pow]
  constructor
  · intro h
    rcases htb : x.testBit n with _ | _
    · rfl
    · rw [htb] at h
      simp at h
  · intro h
    rw [h]
    simp

theorem apply_event_untracked (info : IrShaderInfo) (e : StatEvent)
    (h : is_tracked e.reg = false) : apply_event info e = info := by
  have h2 : (e.reg.flags.isConst || e.reg.flags.isExport) = true := by
    unfold is_tracked at h
    cases hc : e.reg.flags.isConst <;> cases he : e.reg.flags.isExport <;>
      simp_all
  unfold apply_event reg_update_stats
  simp [h2]

theorem apply_event_dest (info : IrShaderInfo) (e : StatEvent)
    (hT : is_tracked e.reg = true) (hd : e.dest = true) :
    apply_event info e =
      { info with max_reg := max info.max_reg (e.reg.num : Int),
                  regs_written := info.regs_written ||| (1 <<< e.reg.num) } := by
  have h2 : (e.reg.flags.isConst || e.reg.flags.isExport) = false := by
    unfold is_tracked at hT
    cases hc : e.reg.flags.isConst <;> cases he : e.reg.flags.isExport <;>
      simp_all
  unfold apply_event reg_update_stats
  simp [h2, hd]

theorem apply_event_src_unwritten (info : IrShaderInfo) (e : StatEvent)
    (hT : is_tracked e.reg = true) (hd : e.dest = false)
    (hw : info.regs_written.testBit e.reg.num = false) :
    apply_event info e =
      { info with max_reg := max info.max_reg (e.reg.num : Int),
                  max_input_reg := max info.max_input_reg e.reg.num } := by
  have h2 : (e.reg.flags.isConst || e.reg.flags.isExport) = false := by
    unfold is_tracked at hT
    cases hc : e.reg.flags.isConst <;> cases he : e.reg.flags.isExport <;>
      simp_all
  unfold apply_event reg_update_stats
  simp [h2, hd, (land_one_shiftLeft_eq_zero_iff _ _).mpr hw]

theorem apply_event_src_written (info : IrShaderInfo) (e : StatEvent)
    (hT : is_tracked e.reg = true) (hd : e.dest = false)
    (hw : info.regs_written.testBit e.reg.num = true) :
    apply_event info e =
      { info with max_reg := max info.max_reg (e.reg.num : Int) } := by
  have h2 : (e.reg.flags.isConst || e.reg.flags.isExport) = false := by
    unfold is_tracked at hT
    cases hc : e.reg.flags.isConst <;> cases he : e.reg.flags.isExport <;>
      simp_all
  have h3 : ¬ (info.regs_written &&& (1 <<< e.reg.num) = 0) := by
    rw [land_one_shiftLeft_eq_zero_iff, hw]
    simp
  unfold apply_event reg_update_stats
  simp [h2, hd, h3]

/-- The folded max_input_reg is the running max over the registers read
before written, starting from the current statistics. -/
theorem run_events_max_input (es : List StatEvent) :
    ∀ info : IrShaderInfo,
      (run_events info es).max_input_reg =
        (read_before_write_nums es info.regs_written).foldl max
          info.max_input_reg := by
  induction es with
  | nil => intro info; simp [run_events, read_before_write_nums]
  | cons e rest ih =>
    intro info
    show (run_events (apply_event info e) rest).max_input_reg = _
    rw [ih (apply_event info e)]
    by_cases hT : is_tracked e.reg = true
    · by_cases hd : e.dest = true
      · rw [apply_event_dest info e hT hd]
        simp only [read_before_write_nums, hT, if_true, hd]
      · by_cases hw : info.regs_written.testBit e.reg.num = false
        · rw [apply_event_src_unwritten info e hT (by simpa using hd) hw]
          simp only [read_before_write_nums, hT, if_true, hd, hw, if_false]
          simp [List.foldl]
        · rw [apply_event_src_written info e hT (by simpa using hd)
            (by simpa using hw)]
          simp only [read_before_write_nums, hT, if_true, hd, hw, if_false]
          simp_all
    · rw [apply_event_untracked info e (by simpa using hT)]
      simp only [read_before_write_nums]
      rw [if_neg (by simpa using hT)]

/-- run_events only grows max_reg. -/
theorem run_events_max_reg_mono (es : List StatEvent) :
    ∀ info : IrShaderInfo, (run_events info es).max_reg ≥ info.max_reg := by
  induction es with
  | nil => intro info; simp [run_events]
  | cons e rest ih =>
    intro info
    show (run_events (apply_event info e) rest).max_reg ≥ _
    calc (run_events (apply_event info e) rest).max_reg
        ≥ (apply_event info e).max_reg := ih _
      _ ≥ info.max_reg := by
        by_cases hT : is_tracked e.reg = true
        · by_cases hd : e.dest = true
          · rw [apply_event_dest info e hT hd]
            simp [le_max_left]
          · by_cases hw : info.regs_written.testBit e.reg.num = false
            · rw [apply_event_src_unwritten info e hT (by simpa using hd) hw]
              simp [le_max_left]
            · rw [apply_event_src_written info e hT (by simpa using hd)
                (by simpa using hw)]
              simp [le_max_left]
        · rw [apply_event_untracked info e (by simpa using hT)]

/-- Every tracked operand bounds the final max_reg from below. -/
theorem run_events_max_reg_ge (es : List StatEvent) :
    ∀ info : IrShaderInfo, ∀ e ∈ es, is_tracked e.reg = true →
      (run_events info es).max_reg ≥ (e.reg.num : Int) := by
  induction es with
  | nil => intro info e he; simp at he
  | cons e0 rest ih =>
    intro info e he hT
    rcases List.mem_cons.mp he with he0 | hrest
    · subst he0
      show (run_events (apply_event info e) rest).max_reg ≥ _
      calc (run_events (apply_event info e) rest).max_reg
          ≥ (apply_event info e).max_reg := run_events_max_reg_mono rest _
        _ ≥ (e.reg.num : Int) := by
          by_cases hd : e.dest = true
          · rw [apply_event_dest info e hT hd]
            simp [le_max_right]
          · by_cases hw : info.regs_written.testBit e.reg.num = false
            · rw [apply_event_src_unwritten info e hT (by simpa using hd) hw]
              simp [le_max_right]
            · rw [apply_event_src_written info e hT (by simpa using hd)
                (by simpa using hw)]
              simp [le_max_right]
    · exact ih (apply_event info e0) e hrest hT

theorem read_before_write_cons (e : StatEvent) (rest : List StatEvent)
    (n : Nat) :
    read_before_write (e :: rest) n ↔
      (is_read_event n e = true ∨
        (is_write_event n e = false ∧ read_before_write rest n)) := by
  constructor
  · rintro ⟨j, e2, hget, hread, hall⟩
    match j with
    | 0 =>
      left
      simp at hget
      subst hget
      exact hread
    | j + 1 =>
      right
      simp only [List.get?_cons_succ] at hget
      rw [show (e :: rest).take (j + 1) = e :: rest.take j from rfl] at hall
      simp only [List.all_cons, Bool.and_eq_true] at hall
      exact ⟨by simpa using hall.1, j, e2, hget, hread, hall.2⟩
  · rintro (h | ⟨hw, j, e2, hget, hread, hall⟩)
    · exact ⟨0, e, rfl, h, by simp⟩
    · refine ⟨j + 1, e2, by simpa using hget, hread, ?_⟩
      rw [show (e :: rest).take (j + 1) = e :: rest.take j from rfl]
      simp [hw, hall]

theorem mem_read_before_write_nums (es : List StatEvent) :
    ∀ (w n : Nat),
      n ∈ read_before_write_nums es w ↔
        (w.testBit n = false ∧ read_before_write es n) := by
  induction es with
  | nil =>
    intro w n
    simp [read_before_write_nums, read_before_write]
  | cons e rest ih =>
    intro w n
    rw [read_before_write_cons]
    by_cases hT : is_tracked e.reg = true
    · by_cases hd : e.dest = true
      · have hre : is_read_event n e = false := by
          unfold is_read_event
          simp [hd]
        have hwe : is_write_event n e = (e.reg.num == n) := by
          unfold is_write_event
          simp [hd, hT]
        simp only [read_before_write_nums]
        rw [if_pos hT, if_pos hd, ih]
        rw [Nat.testBit_lor, testBit_one_shiftLeft]
        by_cases hn : e.reg.num = n
        · simp [hre, hwe, hn]
        · simp [hre, hwe, hn]
      · have hre : is_read_event n e = (e.reg.num == n) := by
          unfold is_read_event
          simp [hd, hT]
        have hwe : is_write_event n e = false := by
          unfold is_write_event
          simp [hd]
        simp only [read_before_write_nums]
        rw [if_pos hT, if_neg hd]
        by_cases hw : w.testBit e.reg.num = false
        · rw [if_pos hw, List.mem_cons, ih]
          by_cases hn : e.reg.num = n
          · subst hn
            simp [hre, hw]
          · have hn2 : ¬ n = e.reg.num := fun h => hn (Eq.symm h)
            simp [hre, hwe, hn, hn2]
        · rw [if_neg hw, ih]
          by_cases hn : e.reg.num = n
          · subst hn
            simp only [Bool.not_eq_false] at hw
            simp [hre, hwe, hw]
          · simp [hre, hwe, hn]
    · have hTf : is_tracked e.reg = false := by simpa using hT
      have hre : is_read_event n e = false := by
        unfold is_read_event
        simp [hTf]
      have hwe : is_write_event n e = false := by
        unfold is_write_event
        simp [hTf]
      simp only [read_before_write_nums]
      rw [if_neg hT, ih]
      simp [hre, hwe]

theorem run_events_append (info : IrShaderInfo) (a b : List StatEvent) :
    run_events info (a ++ b) = run_events (run_events info a) b := by
  simp [run_events]

theorem instr_emit_fetch_info (instr : IrInstruction) (idx : Nat)
    (info : IrShaderInfo) :
    (instr_emit_fetch instr idx info).2 =
      run_events info [⟨reg_at instr 0, true⟩, ⟨reg_at instr 1, false⟩] := by
  unfold instr_emit_fetch run_events apply_event
  split <;> rfl

theorem instr_emit_alu_info (instr : IrInstruction) (info : IrShaderInfo) :
    (instr_emit_alu instr info).2 = run_events info (alu_stat_events instr) := by
  unfold instr_emit_alu alu_stat_events run_events apply_event
  cases hs : instr.alu.scalar_opc <;>
    by_cases hm : instr.alu.vector_opc = VectorOpc.MULADDv <;>
    simp [hs, hm]

theorem emit_exec_instrs_info (instrs : List IrInstruction) :
    ∀ idx info, instrs.all instr_valid = true →
      (emit_exec_instrs instrs idx info).2.2.1 =
        run_events info (events_of_instrs instrs) := by
  induction instrs with
  | nil => intro idx info _; simp [emit_exec_instrs, events_of_instrs, run_events]
  | cons i rest ih =>
    intro idx info hall
    simp only [List.all_cons, Bool.and_eq_true] at hall
    rw [show events_of_instrs (i :: rest) =
      instr_stat_events i ++ events_of_instrs rest from rfl, run_events_append]
    cases ht : i.instr_type
    · simp only [emit_exec_instrs, instr_emit, ht]
      rw [show instr_stat_events i =
        [⟨reg_at i 0, true⟩, ⟨reg_at i 1, false⟩] from by
          simp [instr_stat_events, ht]]
      rw [← instr_emit_fetch_info i idx info]
      exact ih (idx + 1) _ hall.2
    · simp only [emit_exec_instrs, instr_emit, ht]
      rw [show instr_stat_events i = alu_stat_events i from by
        simp [instr_stat_events, ht]]
      rw [← instr_emit_alu_info i info]
      exact ih (idx + 1) _ hall.2
    · exfalso
      have := hall.1
      unfold instr_valid at this
      rw [ht] at this
      simp at this

theorem emit_cfs_instrs_info (cfs : List IrCF) :
    ∀ idx info, (exec_flat cfs).all instr_valid = true →
      (emit_cfs_instrs cfs idx info).2.2.1 =
        run_events info (events_of_instrs (exec_flat cfs)) := by
  induction cfs with
  | nil =>
    intro idx info _
    simp [emit_cfs_instrs, exec_flat, events_of_instrs, run_events]
  | cons cf rest ih =>
    intro idx info hall
    by_cases hex : is_exec_cf cf = true
    · have hsplit : exec_flat (cf :: rest) = cf.exec_instrs ++ exec_flat rest := by
        simp [exec_flat, hex]
      rw [hsplit] at hall
      rw [List.all_append, Bool.and_eq_true] at hall
      have hok : (emit_exec_instrs cf.exec_instrs idx info).2.2.2 = true := by
        rw [(emit_exec_instrs_spec cf.exec_instrs idx info).2.1]
        exact hall.1
      have hevents : events_of_instrs (cf.exec_instrs ++ exec_flat rest) =
          events_of_instrs cf.exec_instrs ++
            events_of_instrs (exec_flat rest) := by
        induction cf.exec_instrs with
        | nil => simp [events_of_instrs]
        | cons a t iha => simp [events_of_instrs, iha, List.append_assoc]
      have hinner := emit_exec_instrs_info cf.exec_instrs idx info hall.1
      simp only [emit_cfs_instrs]
      rw [if_pos hex, if_pos hok]
      rw [hsplit, hevents, run_events_append, ← hinner]
      exact ih _ _ hall.2
    · have hsplit : exec_flat (cf :: rest) = exec_flat rest := by
        simp [exec_flat, hex]
      rw [hsplit] at hall
      rw [hsplit]
      simp only [emit_cfs_instrs]
      rw [if_neg hex]
      exact ih idx info hall

/-- C8: a CONST or EXPORT register changes no statistic; any other
register raises max_reg to at least its number, a destination sets its
bit in regs_written, and a source whose bit is not yet set raises
max_input_reg to at least its number.  Consequently, after assembling a
well-formed shader, regs_written has bit n set iff some tracked register
numbered n was a destination during emission, and max_input_reg is
exactly the maximum (0 if none) of the register numbers read before
being written, where "read before written" means: read at some call with
no tracked write of the same number at any earlier call. -/
theorem C8_register_stats (reg : IrRegister) (info : IrShaderInfo)
    (dest : Bool) (s : IrShader)
    (hvalid : (exec_flat s.cfs).all instr_valid = true) :
    (is_tracked reg = false → reg_update_stats reg info dest = info) ∧
    (is_tracked reg = true →
      (reg_update_stats reg info dest).max_reg ≥ (reg.num : Int) ∧
      (dest = true →
        (reg_update_stats reg info dest).regs_written.testBit reg.num = true) ∧
      (dest = false → info.regs_written.testBit reg.num = false →
        (reg_update_stats reg info dest).max_input_reg ≥ reg.num)) ∧
    (ir_shader_assemble s).2.2 =
      run_events info_init (events_of_instrs (exec_flat s.cfs)) ∧
    (∀ n, ((ir_shader_assemble s).2.2).regs_written.testBit n =
      (events_of_instrs (exec_flat s.cfs)).any (is_write_event n)) ∧
    ((ir_shader_assemble s).2.2).max_input_reg =
      (read_before_write_nums (events_of_instrs (exec_flat s.cfs)) 0).foldl
        max 0 ∧
    (∀ n, n ∈ read_before_write_nums (events_of_instrs (exec_flat s.cfs)) 0 ↔
      read_before_write (events_of_instrs (exec_flat s.cfs)) n) ∧
    (∀ e ∈ events_of_instrs (exec_flat s.cfs), is_tracked e.reg = true →
      ((ir_shader_assemble s).2.2).max_reg ≥ (e.reg.num : Int)) := by
  have hrs : ∀ d : Bool, reg_update_stats reg info d =
      apply_event info ⟨reg, d⟩ := fun d => rfl
  have hA : (ir_shader_assemble s).2.2 =
      run_events info_init (events_of_instrs (exec_flat s.cfs)) := by
    obtain ⟨hchunks, hret, hinfo⟩ := ir_shader_assemble_parts s
    have hflat : exec_flat (shader_resolve { cfs := padded_cfs s }).cfs =
        exec_flat s.cfs := by
      unfold shader_resolve
      rw [exec_flat_resolve, exec_flat_padded]
    rw [hinfo, emit_cfs_instrs_info _ 0 info_init (by rw [hflat]; exact hvalid),
      hflat]
  refine ⟨?_, ?_, hA, ?_, ?_, ?_, ?_⟩
  · intro hT
    rw [hrs dest]
    exact apply_event_untracked info ⟨reg, dest⟩ hT
  · intro hT
    refine ⟨?_, ?_, ?_⟩
    · rw [hrs dest]
      by_cases hd : dest = true
      · rw [show (⟨reg, dest⟩ : StatEvent) = ⟨reg, true⟩ from by rw [hd]]
        rw [apply_event_dest info ⟨reg, true⟩ hT rfl]
        simp [le_max_right]
      · have hdf : dest = false := by simpa using hd
        subst hdf
        by_cases hw : info.regs_written.testBit reg.num = false
        · rw [apply_event_src_unwritten info ⟨reg, false⟩ hT rfl hw]
          simp [le_max_right]
        · rw [apply_event_src_written info ⟨reg, false⟩ hT rfl
            (by simpa using hw)]
          simp [le_max_right]
    · intro hd
      subst hd
      rw [hrs true, apply_event_regs_written]
      have : is_write_event reg.num ⟨reg, true⟩ = true := by
        unfold is_write_event
        simp [hT]
      rw [this]
      simp
    · intro hd hw
      subst hd
      rw [hrs false, apply_event_src_unwritten info ⟨reg, false⟩ hT rfl hw]
      simp [le_max_right]
  · intro n
    rw [hA, run_events_regs_written]
    simp [info_init]
  · rw [hA, run_events_max_input]
    simp [info_init]
  · intro n
    rw [mem_read_before_write_nums]
    simp
  · intro e he hT
    rw [hA]
    exact run_events_max_reg_ge _ info_init e he hT

theorem C8_register_stats_witness :
    (is_tracked regW = false → reg_update_stats regW info_init true = info_init) ∧
    (is_tracked regW = true →
      (reg_update_stats regW info_init true).max_reg ≥ (regW.num : Int) ∧
      (true = true →
        (reg_update_stats regW info_init true).regs_written.testBit regW.num =
          true) ∧
      (true = false → info_init.regs_written.testBit regW.num = false →
        (reg_update_stats regW info_init true).max_input_reg ≥ regW.num)) ∧
    (ir_shader_assemble sampleShader).2.2 =
      run_events info_init (events_of_instrs (exec_flat sampleShader.cfs)) ∧
    (∀ n, ((ir_shader_assemble sampleShader).2.2).regs_written.testBit n =
      (events_of_instrs (exec_flat sampleShader.cfs)).any (is_write_event n)) ∧
    ((ir_shader_assemble sampleShader).2.2).max_input_reg =
      (read_before_write_nums
        (events_of_instrs (exec_flat sampleShader.cfs)) 0).foldl max 0 ∧
    (∀ n, n ∈ read_before_write_nums
        (events_of_instrs (exec_flat sampleShader.cfs)) 0 ↔
      read_before_write (events_of_instrs (exec_flat sampleShader.cfs)) n) ∧
    (∀ e ∈ events_of_instrs (exec_flat sampleShader.cfs),
      is_tracked e.reg = true →
      ((ir_shader_assemble sampleShader).2.2).max_reg ≥ (e.reg.num : Int)) :=
  C8_register_stats regW info_init true sampleShader (by decide)

end Fdre
